import Mathlib

/-!
# Verification of the schemec C++ back end (`src/schemec/gencpp.py`)

This file gives a shallow embedding of the code generator in
`src/schemec/gencpp.py`: the primitive-operator registry (`NumPrimOps`,
`StrPrimOps`, `is_primop`, `gen_primop`), the free-variable ("hole")
analysis (`compute_holes`), the lambda lifter (`LambdaGenCpp`), the
expression lowerer (`gen_cpp`'s inner `to_cpp`), and the pre-built
`halt` continuation.

The AST node types, their `map` traversal and the `gensym` fresh-name
service come from `schemec/types.py`, which is not part of the sources
under verification; those parts are modelled from the specification
(see the doc comments starting with `Modelled from the spec:`).  All
string-building logic is translated directly from `gencpp.py`.
-/

/-- Modelled from the spec: Python exception values raised by the code
generator.  `schemec/gencpp.py` raises `RuntimeError` with a message,
`KeyError` with the missing key, and Python itself raises `TypeError`
(wrong number of positional arguments), `IndexError` (list index out of
range) and `ValueError` (`min`/`max` of an empty sequence). -/
inductive PyErr where
  | runtimeError (msg : String)
  | keyError (key : String)
  | typeError (msg : String)
  | indexError (msg : String)
  | valueError (msg : String)
deriving DecidableEq, Repr

/-- `NUM, LAM, STR = 'NUM', 'LAM', 'STR'` (gencpp.py line 32). -/
def NUM : String := "NUM"

/-- Tag string for closures. -/
def LAM : String := "LAM"

/-- Tag string for strings. -/
def STR : String := "STR"

/-- `TYPES = [NUM, LAM, STR]` (gencpp.py line 33). -/
def TYPES : List String := [NUM, LAM, STR]

/-- `NumPrimOps.binary_ops` (gencpp.py lines 37-42). -/
def NumPrimOps.binary_ops : List (String × String) :=
  [("+", "+"), ("-", "-"), ("*", "*"), ("=", "==")]

/-- `NumPrimOps.unary_ops` (gencpp.py lines 45-47). -/
def NumPrimOps.unary_ops : List (String × String) :=
  [("zero?", "== 0")]

/-- `NumPrimOps.binary_fmt = '{dst}->num = {lhs}->num {op} {rhs}->num;'`. -/
def NumPrimOps.binary_fmt (dst lhs op rhs : String) : String :=
  dst ++ "->num = " ++ lhs ++ "->num " ++ op ++ " " ++ rhs ++ "->num;"

/-- `NumPrimOps.unary_fmt = '{dst}->num = {lhs}->num {op};'`. -/
def NumPrimOps.unary_fmt (dst lhs op : String) : String :=
  dst ++ "->num = " ++ lhs ++ "->num " ++ op ++ ";"

/-- `NumPrimOps.__call__` (gencpp.py lines 49-63).  A `KeyError` from the
table lookup is caught and re-raised as the `unimplemented primitive
number operation` RuntimeError. -/
def NumPrimOps.call (op dst lhs : String) (rhs : Option String) :
    Except PyErr (String × String) :=
  match rhs with
  | none =>
    match NumPrimOps.unary_ops.lookup op with
    | some o => .ok (NUM, NumPrimOps.unary_fmt dst lhs o)
    | none => .error (.runtimeError ("unimplemented primitive number operation: " ++ op))
  | some r =>
    match NumPrimOps.binary_ops.lookup op with
    | some o => .ok (NUM, NumPrimOps.binary_fmt dst lhs o r)
    | none => .error (.runtimeError ("unimplemented primitive number operation: " ++ op))

/-- `NumPrimOps.__contains__` (gencpp.py lines 65-70). -/
def NumPrimOps.contains (key : String) : Bool :=
  (NumPrimOps.binary_ops.lookup key).isSome || (NumPrimOps.unary_ops.lookup key).isSome

/-- `StrPrimOps.binary_ops['string-append']` code template (lines 85-88). -/
def StrPrimOps.append_fmt (dst lhs rhs : String) : String :=
  dst ++ "->str = std::shared_ptr<std::string>(" ++ lhs ++ "->str);\n" ++
  dst ++ "->str.append(" ++ rhs ++ "->str);"

/-- `StrPrimOps.binary_ops['string=?']` code template (line 89). -/
def StrPrimOps.eq_fmt (dst lhs rhs : String) : String :=
  dst ++ "->num = " ++ lhs ++ "->str.compare(" ++ rhs ++ "->str) != 0;"

/-- The keys of `StrPrimOps.binary_ops`. -/
def StrPrimOps.binary_keys : List String := ["string-append", "string=?"]

/-- `StrPrimOps.__call__` (gencpp.py lines 92-102).  Note that it returns
the tag `STR` for *every* entry of the table, including `string=?`
whose template assigns into the `num` field. -/
def StrPrimOps.call (op dst lhs : String) (rhs : Option String) :
    Except PyErr (String × String) :=
  match rhs with
  | none => .error (.runtimeError ("unimplemented primitive operation: " ++ op))
  | some r =>
    if op = "string-append" then .ok (STR, StrPrimOps.append_fmt dst lhs r)
    else if op = "string=?" then .ok (STR, StrPrimOps.eq_fmt dst lhs r)
    else .error (.runtimeError ("unimplemented primitive operation: " ++ op))

/-- `StrPrimOps.__contains__` (gencpp.py lines 104-106). -/
def StrPrimOps.contains (key : String) : Bool :=
  StrPrimOps.binary_keys.contains key

/-- `is_primop` (gencpp.py lines 117-121). -/
def is_primop (op : String) : Bool :=
  NumPrimOps.contains op || StrPrimOps.contains op

/-- `gen_primop` (gencpp.py lines 123-129).  Python's `*args` unpacking
raises `TypeError` when the argument count does not fit the
`(op, dst, lhs, rhs=None)` signature of the table's `__call__`; an
operator in neither table raises a bare `KeyError`. -/
def gen_primop (op dst : String) (args : List String) :
    Except PyErr (String × String) :=
  if NumPrimOps.contains op then
    match args with
    | [lhs] => NumPrimOps.call op dst lhs none
    | [lhs, rhs] => NumPrimOps.call op dst lhs (some rhs)
    | [] => .error (.typeError "__call__() missing 1 required positional argument: 'lhs'")
    | _ => .error (.typeError "__call__() takes from 3 to 4 positional arguments")
  else if StrPrimOps.contains op then
    match args with
    | [lhs] => StrPrimOps.call op dst lhs none
    | [lhs, rhs] => StrPrimOps.call op dst lhs (some rhs)
    | [] => .error (.typeError "__call__() missing 1 required positional argument: 'lhs'")
    | _ => .error (.typeError "__call__() takes from 3 to 4 positional arguments")
  else .error (.keyError op)

/-- The node-kind tag carried by a lowered fragment (`CppCode.typ` holds
`type(exp)` of the node it was produced from, gencpp.py line 427). -/
inductive ExpKind where
  | varK | numK | boolK | strK | voidK | lamK | appK | ifK | letrecK
  | beginK | setK | setThenK | cppK
deriving DecidableEq, Repr

/-- The Python `str(type(exp))` rendering used in error messages. -/
def kindStr : ExpKind → String
  | .varK => "<class 'schemec.types.VarExp'>"
  | .numK => "<class 'schemec.types.NumExp'>"
  | .boolK => "<class 'schemec.types.BoolExp'>"
  | .strK => "<class 'schemec.types.StrExp'>"
  | .voidK => "<class 'schemec.types.VoidExp'>"
  | .lamK => "<class 'schemec.types.LamExp'>"
  | .appK => "<class 'schemec.types.AppExp'>"
  | .ifK => "<class 'schemec.types.IfExp'>"
  | .letrecK => "<class 'schemec.types.LetRecExp'>"
  | .beginK => "<class 'schemec.types.BeginExp'>"
  | .setK => "<class 'schemec.types.SetExp'>"
  | .setThenK => "<class 'schemec.types.SetThenExp'>"
  | .cppK => "<class 'schemec.gencpp.CppCode'>"

/-- `CppCode` (gencpp.py lines 147-167): a lowered fragment.  `typ` is the
node kind it came from, `code` the value identifier (`__str__` returns
it), `decls` the ordered list of (declaration, operation) string pairs. -/
structure CppCode where
  typ : ExpKind
  code : String
  decls : List (String × String)
deriving DecidableEq, Repr

/-- `'\n'.join(x for x in l if x)`: Python's join over the non-empty
elements. -/
def joinNonEmpty (sep : String) (l : List String) : String :=
  match l.filter (fun s => s != "") with
  | [] => ""
  | [x] => x
  | x :: xs => joinNonEmptyAux sep xs x
where
  /-- Left fold accumulating `acc ++ sep ++ elem`. -/
  joinNonEmptyAux (sep : String) : List String → String → String
  | [], acc => acc
  | x :: xs, acc => joinNonEmptyAux sep xs (acc ++ sep ++ x)

/-- `', '.join(l)`-style join with no filtering. -/
def joinSep (sep : String) : List String → String
  | [] => ""
  | [x] => x
  | x :: xs => x ++ sep ++ joinSep sep xs

/-- `CppCode.decls_ops` (gencpp.py lines 158-167): unzip the pair list and
join each column with newlines, dropping empty strings. -/
def CppCode.decls_ops (c : CppCode) : String × String :=
  (joinNonEmpty "\n" (c.decls.map Prod.fst), joinNonEmpty "\n" (c.decls.map Prod.snd))

/-- Modelled from the spec: the CPS expression tree of `schemec/types.py`
(not under `src/`).  One constructor per node kind of the spec's data
model; `LamExp` carries the globally unique name the spec assigns to
every lambda, `CppCodeExp` embeds an already-lowered fragment (used by
the pre-built `halt` continuation). -/
inductive Exp where
  | VarExp (name : String)
  | NumExp (val : Int)
  | BoolExp (val : Bool)
  | StrExp (val : String)
  | VoidExp
  | LamExp (name : String) (argExps : List Exp) (bodyExp : Exp)
  | AppExp (funcExp : Exp) (argExps : List Exp)
  | IfExp (condExp thenExp elseExp : Exp)
  | LetRecExp (bindings : List (String × Exp)) (bodyExp : Exp)
  | BeginExp (exps : List Exp)
  | SetExp (name : String) (exp : Exp)
  | SetThenExp (name : String) (exp kont : Exp)
  | CppCodeExp (c : CppCode)
deriving Repr

/-- The node kind of an expression (`type(exp)`). -/
def Exp.kind : Exp → ExpKind
  | .VarExp _ => .varK
  | .NumExp _ => .numK
  | .BoolExp _ => .boolK
  | .StrExp _ => .strK
  | .VoidExp => .voidK
  | .LamExp _ _ _ => .lamK
  | .AppExp _ _ => .appK
  | .IfExp _ _ _ => .ifK
  | .LetRecExp _ _ => .letrecK
  | .BeginExp _ => .beginK
  | .SetExp _ _ => .setK
  | .SetThenExp _ _ _ => .setThenK
  | .CppCodeExp _ => .cppK

/-- Python `set.add`: insert a name into the running set, keeping
insertion order (a deterministic model of the in-process set). -/
def setAdd (r : List String) (x : String) : List String :=
  if r.contains x then r else r ++ [x]

/-- Python set difference `holes - set(argExps)` restricted to names. -/
def setSub (r : List String) (ps : List String) : List String :=
  r.filter (fun x => !(ps.contains x))

/-- Python `set.add` over arities. -/
def setAddNat (r : List Nat) (x : Nat) : List Nat :=
  if r.contains x then r else r ++ [x]

/-- The holes dictionary: lambda name to captured-hole name list. -/
abbrev HDict := List (String × List String)

/-- Replace the entry for key `nm` by `(nm, v)`, leave others alone. -/
def replaceEntry (nm : String) (v : List String) (p : String × List String) :
    String × List String :=
  if p.1 = nm then (nm, v) else p

/-- Python `dict` assignment `d[k] = v`: update in place or append. -/
def dictUpd (d : HDict) (k : String) (v : List String) : HDict :=
  if (d.lookup k).isSome then d.map (replaceEntry k v)
  else d ++ [(k, v)]

/-- The names of those formal parameters that are variable nodes
(`set(exp.argExps)` in `find_holes` removes `VarExp` objects by name;
an embedded `CppCode` parameter, as in `halt`, is never equal to a
`VarExp` and removes nothing). -/
def varNamesOf (args : List Exp) : List String :=
  args.filterMap (fun a => match a with | .VarExp n => some n | _ => none)

mutual
/-- The `find_holes` visitor of `compute_holes` (gencpp.py lines 136-143),
threaded over the post-order traversal performed by `rootExp.map`
(Modelled from the spec: `map` processes a node's children, in field
order, before the node itself, sharing one running set).  State:
(running free-name set, holes dictionary). -/
def findHoles : Exp → List String × HDict → List String × HDict
  | .VarExp n, (r, d) => (if is_primop n then r else setAdd r n, d)
  | .NumExp _, s => s
  | .BoolExp _, s => s
  | .StrExp _, s => s
  | .VoidExp, s => s
  | .LamExp nm args body, s =>
    let s1 := findHolesList args s
    let s2 := findHoles body s1
    let ps := varNamesOf args
    (setSub s2.1 ps, dictUpd s2.2 nm (setSub s2.1 ps))
  | .AppExp f args, s => findHolesList args (findHoles f s)
  | .IfExp c t e, s => findHoles e (findHoles t (findHoles c s))
  | .LetRecExp bs body, s => findHoles body (findHolesBinds bs s)
  | .BeginExp es, s => findHolesList es s
  | .SetExp _ e, s => findHoles e s
  | .SetThenExp _ e k, s => findHoles k (findHoles e s)
  | .CppCodeExp _, s => s

/-- `find_holes` over a list of children, left to right. -/
def findHolesList : List Exp → List String × HDict → List String × HDict
  | [], s => s
  | e :: es, s => findHolesList es (findHoles e s)

/-- `find_holes` over recursive-binding bodies, left to right. -/
def findHolesBinds : List (String × Exp) → List String × HDict → List String × HDict
  | [], s => s
  | (_, e) :: bs, s => findHolesBinds bs (findHoles e s)
end

/-- `compute_holes` (gencpp.py lines 134-145). -/
def compute_holes (rootExp : Exp) : HDict :=
  (findHoles rootExp ([], [])).2

/-- `declare` (gencpp.py lines 246-249). -/
def declare (var : String) (construct : Bool := true) : String :=
  "SCHEMETYPE_T " ++ var ++ (if construct then "(new schemetype_t)" else "") ++ ";"

/-- Modelled from the spec: the opaque `gensym` fresh-name service of
`schemec/types.py`, as a counter appended to the requested prefix. -/
def gensym (sym : String) (c : Nat) : String × Nat :=
  (sym ++ toString c, c + 1)

/-- The mutable state of one `gen_cpp` run: the fresh-name counter and
the `LambdaGenCpp` instance's `nargs` set and `_decls` ordered
dictionary (lambda name to (class declaration, class operation)). -/
structure St where
  ctr : Nat
  nargs : List Nat
  lamDecls : List (String × String × String)
deriving DecidableEq, Repr

/-- The `apply_args` string of a lifted class: the call operator's
parameter list, from the mapped formal parameters (gencpp.py line 180). -/
def lamApplyArgs (margs : List CppCode) : String :=
  joinSep ", " (margs.map (fun a => "SCHEMETYPE_T " ++ a.code))

/-- The generated class declaration of one lifted lambda (gencpp.py
lines 182-196): constructor parameters and private fields are the
captured holes `hs`, in order. -/
def lamClassDecl (nm : String) (hs : List String) (applyArgs : String) : String :=
  "class " ++ nm ++ " : public lambda_t \x7b\n public:\n  " ++
  nm ++ "(" ++ joinSep ", " (hs.map (fun h => "SCHEMETYPE_T " ++ h)) ++ ") : " ++
  joinSep ", " (hs.map (fun h => h ++ "(" ++ h ++ ")")) ++ " \x7b \x7d\n  ~" ++
  nm ++ "() \x7b \x7d;\n  THUNK_T operator()(" ++ applyArgs ++ ") const;\n private:\n  " ++
  joinSep "\n  " (hs.map (fun h => "SCHEMETYPE_T " ++ h ++ ";")) ++ "\n\x7d;"

/-- The generated call-operator body of one lifted lambda (gencpp.py
lines 197-208): the lowered body's declarations, operations and
returned value identifier. -/
def lamClassOp (nm applyArgs ds os bodyCode : String) : String :=
  "THUNK_T " ++ nm ++ "::operator()(" ++ applyArgs ++ ") const \x7b\n  " ++
  ds ++ "\n  " ++ os ++ "\n  " ++ "return " ++ bodyCode ++ ";" ++ "\n\x7d"

/-- The closure-instantiation operation emitted at a lambda occurrence
(gencpp.py lines 329-333): `new` applied to the hole names, in order. -/
def lamInstantiation (tmp cls : String) (hs : List String) : String :=
  tmp ++ "->lam = LAMBDA_T(new " ++ cls ++ "(" ++ joinSep ", " hs ++ "));"

/-- `LambdaGenCpp.__getitem__` (gencpp.py lines 174-210).  `margs` and
`mbody` are the lambda's formal parameters and body *after* the `map`
traversal has replaced them by lowered fragments; `HL` is the holes
dictionary the `LambdaGenCpp` instance computed in its constructor. -/
def lamGetitem (HL : HDict) (nm : String) (margs : List CppCode)
    (mbody : CppCode) (st : St) : Except PyErr (String × St) :=
  if (st.lamDecls.lookup nm).isSome then .ok (nm, st)
  else
    match HL.lookup nm with
    | none => .error (.keyError nm)
    | some hs =>
      let (ds, os) := mbody.decls_ops
      let applyArgs := lamApplyArgs margs
      let cdecl := lamClassDecl nm hs applyArgs
      let cop := lamClassOp nm applyArgs ds os mbody.code
      .ok (nm, { st with
                 nargs := setAddNat st.nargs margs.length,
                 lamDecls := st.lamDecls ++ [(nm, cdecl, cop)] })

mutual
/-- The inner `to_cpp` transform of `gen_cpp` (gencpp.py lines 285-427),
with the post-order `map` traversal unfolded into direct recursion
(Modelled from the spec: `rootExp.map(to_cpp)` replaces every child by
its lowered fragment, in field order, before visiting the node).  `H`
is `gen_cpp`'s own holes dictionary (line 281), `HL` the one held by
the `LambdaGenCpp` instance (line 171). -/
def toCpp (H HL : HDict) : Exp → St → Except PyErr (CppCode × St)
  | .VarExp n, st => .ok (⟨.varK, n, []⟩, st)
  | .NumExp v, st =>
    let (tmp, c') := gensym "__num_" st.ctr
    .ok (⟨.numK, tmp,
      [(declare tmp,
        tmp ++ "->type = " ++ NUM ++ ";\n" ++ tmp ++ "->num = " ++ toString v ++ ";")]⟩,
      { st with ctr := c' })
  | .BoolExp b, st =>
    let (tmp, c') := gensym "__bool_" st.ctr
    .ok (⟨.boolK, tmp,
      [(declare tmp,
        tmp ++ "->type = " ++ NUM ++ ";\n" ++ tmp ++ "->num = " ++
        (if b then "1" else "0") ++ ";")]⟩,
      { st with ctr := c' })
  | .StrExp v, st =>
    let (tmp, c') := gensym "__str_" st.ctr
    .ok (⟨.strK, tmp,
      [(declare tmp,
        tmp ++ "->type = " ++ STR ++ ";\n" ++ tmp ++ "->str = " ++
        ("\"" ++ v ++ "\"") ++ ";")]⟩,
      { st with ctr := c' })
  | .VoidExp, _ =>
    .error (.runtimeError ("unimplemented expression type: " ++ kindStr .voidK))
  | .LamExp nm args body, st => do
    let (margs, st1) ← toCppList H HL args st
    let (mbody, st2) ← toCpp H HL body st1
    let (cls, st3) ← lamGetitem HL nm margs mbody st2
    let (tmp, c4) := gensym "__lam_" st3.ctr
    match H.lookup nm with
    | none => .error (.keyError nm)
    | some hs =>
      .ok (⟨.lamK, tmp,
        [(declare tmp, lamInstantiation tmp cls hs)]⟩,
        { st3 with ctr := c4 })
  | .AppExp f args, st => do
    let (mf, st1) ← toCpp H HL f st
    let (margs, st2) ← toCppList H HL args st1
    let decls0 := (margs.map CppCode.decls).flatten ++ mf.decls
    let (tmp, c3) := gensym "__ret_" st2.ctr
    let func := mf.code
    if is_primop func then
      let (prim, c4) := gensym "__prim_" c3
      match gen_primop func prim ((margs.map CppCode.code).dropLast) with
      | .error e => .error e
      | .ok (typ, body) =>
        match (margs.map CppCode.code).getLast? with
        | none => .error (.indexError "list index out of range")
        | some kont =>
          .ok (⟨.appK, tmp,
            decls0 ++
            [(declare prim ++ "\nTHUNK_T " ++ tmp ++ "(nullptr);",
              prim ++ "->type = " ++ typ ++ ";\n" ++ body ++ "\n" ++
              tmp ++ " = std::move((*" ++ kont ++ "->lam)(" ++ prim ++ "));")]⟩,
            { st2 with ctr := c4 })
    else if mf.typ = .varK then
      .ok (⟨.appK, tmp,
        decls0 ++
        [("THUNK_T " ++ tmp ++ "(nullptr);",
          tmp ++ " = std::move((*" ++ mf.code ++ "->lam)(" ++
          joinSep ", " (margs.map CppCode.code) ++ "));")]⟩,
        { st2 with ctr := c3 })
    else
      .error (.runtimeError ("AppExp unimplemented for funcExp of type: " ++ kindStr mf.typ))
  | .IfExp c t e, st => do
    let (mc, st1) ← toCpp H HL c st
    let (mt, st2) ← toCpp H HL t st1
    let (me, st3) ← toCpp H HL e st2
    let (thenDecls, thenOps) := mt.decls_ops
    let (elseDecls, elseOps) := me.decls_ops
    let (tmp, c4) := gensym "__ret_" st3.ctr
    .ok (⟨.ifK, tmp,
      mc.decls ++
      [("THUNK_T " ++ tmp ++ "(nullptr);",
        "if (" ++ mc.code ++ "->num) \x7b\n  " ++ thenDecls ++ "\n  " ++ thenOps ++
        "\n  " ++ tmp ++ " = std::move(" ++ mt.code ++ ");\n\x7d\nelse \x7b\n  " ++
        elseDecls ++ "\n  " ++ elseOps ++ "\n  " ++ tmp ++ " = std::move(" ++
        me.code ++ ");\n\x7d")]⟩,
      { st3 with ctr := c4 })
  | .LetRecExp bs body, st => do
    let (mbs, st1) ← toCppBinds H HL bs st
    let (mb, st2) ← toCpp H HL body st1
    let decls0 := (mbs.map (fun vc =>
      vc.2.decls ++ [(declare vc.1, vc.1 ++ " = std::move(" ++ vc.2.code ++ ");")])).flatten
    .ok (⟨.letrecK, mb.code, decls0 ++ mb.decls⟩, st2)
  | .BeginExp _, _ =>
    .error (.runtimeError ("unimplemented expression type: " ++ kindStr .beginK))
  | .SetExp _ _, _ =>
    .error (.runtimeError ("unimplemented expression type: " ++ kindStr .setK))
  | .SetThenExp _ _ _, _ =>
    .error (.runtimeError ("unimplemented expression type: " ++ kindStr .setThenK))
  | .CppCodeExp c, st => .ok (c, st)

/-- `to_cpp` mapped over a list of children, left to right. -/
def toCppList (H HL : HDict) : List Exp → St → Except PyErr (List CppCode × St)
  | [], st => .ok ([], st)
  | e :: es, st => do
    let (c, st1) ← toCpp H HL e st
    let (cs, st2) ← toCppList H HL es st1
    .ok (c :: cs, st2)

/-- `to_cpp` mapped over recursive-binding bodies, left to right. -/
def toCppBinds (H HL : HDict) : List (String × Exp) → St →
    Except PyErr (List (String × CppCode) × St)
  | [], st => .ok ([], st)
  | (v, e) :: bs, st => do
    let (c, st1) ← toCpp H HL e st
    let (cs, st2) ← toCppBinds H HL bs st1
    .ok ((v, c) :: cs, st2)
end

/-- Python `min` over the observed-arities set. -/
def pyMin : List Nat → Option Nat
  | [] => none
  | x :: xs => some (xs.foldl Nat.min x)

/-- Python `max` over the observed-arities set. -/
def pyMax : List Nat → Option Nat
  | [] => none
  | x :: xs => some (xs.foldl Nat.max x)

/-- One virtual call signature of the shared `lambda_t` base class, for
arity `i` (gencpp.py lines 221-226). -/
def lambdaBaseSig (i : Nat) : String :=
  "THUNK_T operator()(" ++ joinSep ", " (List.replicate i "SCHEMETYPE_T") ++ ") const;"

/-- One default (arity-mismatch) operation of `lambda_t`, for arity `i`
(gencpp.py lines 228-236). -/
def lambdaBaseOp (i : Nat) : String :=
  "THUNK_T lambda_t::operator()(" ++
  joinSep ", " ((List.range i).map (fun j => "SCHEMETYPE_T _" ++ toString j)) ++
  ") const \x7b\n  printf(\"error: lambda called with an improper number of arguments\\n\");\n  exit(-1);\n\x7d\n"

/-- `LambdaGenCpp.decls_ops` (gencpp.py lines 211-244): the base-callable
declaration with one signature per arity in `[min, max]`, the default
arity-mismatch operations, then every memoized class declaration and
operation in first-encountered order. -/
def lambdaDeclsOps (st : St) : Except PyErr (String × String) :=
  match pyMin st.nargs, pyMax st.nargs with
  | some lo, some hi =>
    let rng := List.range' lo (hi + 1 - lo)
    let decl := "class lambda_t \x7b\n public:\n  " ++
      joinSep "\n  " (rng.map lambdaBaseSig) ++ "\n\x7d;\n"
    let op := String.join (rng.map lambdaBaseOp)
    .ok (decl ++ joinNonEmpty "\n" (st.lamDecls.map (fun x => x.2.1)),
         op ++ joinNonEmpty "\n" (st.lamDecls.map (fun x => x.2.2)))
  | _, _ => .error (.valueError "min() arg is an empty sequence")

/-- The fresh name of the `halt` continuation's single parameter
(`gensym('__halt_')` at module load, gencpp.py line 251). -/
def haltArgName : String := "__halt_0"

/-- The single operation of the `halt` continuation (gencpp.py lines
258-273): a switch on the argument's tag.  Note that no `case` body
ends in `break`. -/
def haltSwitchOp : String :=
  "switch(" ++ haltArgName ++ "->type) \x7b\n case " ++ NUM ++ ":\n  printf(\"%ld\\n\", " ++
  haltArgName ++ "->num);\n case " ++ LAM ++
  ":\n  printf(\"you want to return a lambda?! really?!\\n\");\n case " ++ STR ++
  ":\n  printf(\"%s\\n\", " ++ haltArgName ++
  "->str->c_str());\n default:\n  printf(\"error\\n\");\n  retval = -1;\n\x7d\nexit(retval);"

/-- The declaration half of the `halt` body fragment. -/
def haltDecl : String := "int retval = 0;"

/-- Modelled from the spec: the globally unique name `schemec/types.py`
assigns to the `halt` lambda on construction. -/
def haltName : String := "__halt_lam_0"

/-- `halt` (gencpp.py lines 252-276): a pre-built arity-one lambda whose
parameter and body are embedded `CppCode` fragments. -/
def halt : Exp :=
  .LamExp haltName
    [.CppCodeExp ⟨.varK, haltArgName, []⟩]
    (.CppCodeExp ⟨.lamK, "THUNK_T(nullptr)", [(haltDecl, haltSwitchOp)]⟩)

/-- `gen_cpp` up to the point where the runtime boilerplate is formatted
(gencpp.py lines 279-432): compute the holes twice (once directly, once
inside the `LambdaGenCpp` constructor), run the lowering, and collect
the four generated text blocks (main declarations, main operations,
lambda declarations, lambda operations) plus the root value identifier. -/
def gen_cpp_parts (e : Exp) : Except PyErr (String × String × String × String × String) := do
  let holes := compute_holes e
  let lambdaGenHoles := compute_holes e
  let (body, st) ← toCpp holes lambdaGenHoles e ⟨0, [], []⟩
  let (mainDecls, mainOps) := body.decls_ops
  let (lambdaDecls, lambdaOps) ← lambdaDeclsOps st
  .ok (body.code, mainDecls, mainOps, lambdaDecls, lambdaOps)

/-- Does a result carry the "unimplemented primitive ..." RuntimeError the
spec's error taxonomy names (both table messages start with this
prefix)? -/
def isUnimplementedPrimError : Except PyErr (String × String) → Bool
  | .error (.runtimeError m) => List.isPrefixOf "unimplemented primitive".data m.data
  | _ => false

/-- One labelled arm of the `halt` continuation's switch statement:
its label, its raw C++ body lines, what executing the body prints, and
the value it assigns to `retval` if any. -/
structure HaltCase where
  label : String
  body : List String
  prints : String
  setsRetval : Option Int
deriving Repr, DecidableEq

/-- The four arms of the `halt` switch (gencpp.py lines 260-270),
structured.  `renderHaltSwitch` below reproduces `haltSwitchOp`
character for character from this list. -/
def haltCases : List HaltCase :=
  [⟨"case " ++ NUM, ["printf(\"%ld\\n\", " ++ haltArgName ++ "->num);"],
    "the integer", none⟩,
   ⟨"case " ++ LAM, ["printf(\"you want to return a lambda?! really?!\\n\");"],
    "the closure diagnostic", none⟩,
   ⟨"case " ++ STR, ["printf(\"%s\\n\", " ++ haltArgName ++ "->str->c_str());"],
    "the string", none⟩,
   ⟨"default", ["printf(\"error\\n\");", "retval = -1;"],
    "error", some (-1)⟩]

/-- Render one switch arm as emitted text. -/
def renderHaltCase (c : HaltCase) : String :=
  "\n " ++ c.label ++ ":" ++ String.join (c.body.map (fun l => "\n  " ++ l))

/-- Render the whole `halt` switch from `haltCases`. -/
def renderHaltSwitch : String :=
  "switch(" ++ haltArgName ++ "->type) \x7b" ++ String.join (haltCases.map renderHaltCase) ++
  "\n\x7d\nexit(retval);"

/-- Modelled from the spec: C execution of a suffix of switch arms.  No
arm of the `halt` switch ends in `break`, so control falls through
every remaining arm: each body's print happens and each `retval`
assignment overwrites the running value. -/
def runHaltFrom : List HaltCase → Int → List String × Int
  | [], r => ([], r)
  | c :: rest, r =>
    let (outs, rf) := runHaltFrom rest (c.setsRetval.getD r)
    (c.prints :: outs, rf)

/-- Modelled from the spec: C switch dispatch — jump to the first arm
whose label matches and execute from there. -/
def haltDropUntil : List HaltCase → String → List HaltCase
  | [], _ => []
  | c :: rest, lbl => if c.label = lbl then c :: rest else haltDropUntil rest lbl

/-- Modelled from the spec: running the `halt` operation on a value of
the given tag.  `retval` starts at 0 (`haltDecl`), the switch executes
with fall-through, and the process exits with the final `retval`. -/
def runHaltSwitch (lbl : String) : List String × Int :=
  runHaltFrom (haltDropUntil haltCases lbl) 0

/-- Executable substring check over the underlying character lists. -/
def infixChars (nd : List Char) : List Char → Bool
  | [] => nd.isEmpty
  | c :: rest => List.isPrefixOf nd (c :: rest) || infixChars nd rest

/-- `hasSubstr hay needle`: does `needle` occur contiguously in `hay`? -/
def hasSubstr (hay needle : String) : Bool := infixChars needle.data hay.data

mutual
/-- All lambda occurrences of a tree, as (name, variable-parameter
names) pairs, in traversal order. -/
def lamNameParams : Exp → List (String × List String)
  | .VarExp _ => []
  | .NumExp _ => []
  | .BoolExp _ => []
  | .StrExp _ => []
  | .VoidExp => []
  | .LamExp nm args body =>
    lamNameParamsList args ++ lamNameParams body ++ [(nm, varNamesOf args)]
  | .AppExp f args => lamNameParams f ++ lamNameParamsList args
  | .IfExp c t e => lamNameParams c ++ lamNameParams t ++ lamNameParams e
  | .LetRecExp bs body => lamNameParamsBinds bs ++ lamNameParams body
  | .BeginExp es => lamNameParamsList es
  | .SetExp _ e => lamNameParams e
  | .SetThenExp _ e k => lamNameParams e ++ lamNameParams k
  | .CppCodeExp _ => []

/-- Lambda occurrences of a list of children. -/
def lamNameParamsList : List Exp → List (String × List String)
  | [] => []
  | e :: es => lamNameParams e ++ lamNameParamsList es

/-- Lambda occurrences of recursive-binding bodies. -/
def lamNameParamsBinds : List (String × Exp) → List (String × List String)
  | [] => []
  | (_, e) :: bs => lamNameParams e ++ lamNameParamsBinds bs
end

/-- The invariant C5 is about, as a property of one traversal state: no
primitive-operator name is ever in the running free-name set, and every
hole list recorded in the dictionary is primop-free and disjoint from
the parameter names of the lambda (of the tree `root`) it was recorded
for. -/
def holesInv (root : Exp) (s : List String × HDict) : Prop :=
  (∀ x ∈ s.1, is_primop x = false) ∧
  (∀ nm hs, s.2.lookup nm = some hs →
    (∀ x ∈ hs, is_primop x = false) ∧
    (∀ ps, (nm, ps) ∈ lamNameParams root → ∀ p ∈ ps, p ∉ hs))

/-! ### Identifier-token analysis of emitted text (for the
concatenation-consistency claim).  An identifier token is a maximal run
of alphanumeric/underscore characters; `declNamesOf` reads C
declarations off a token stream as the names following the type tokens
`SCHEMETYPE_T`/`THUNK_T` that all generated declarations use. -/

/-- Is `c` a C identifier character (as generated names use them)? -/
def isIdentChar (c : Char) : Bool := c.isAlphanum || c = '_'

/-- Flush the (reversed) pending identifier-run accumulator. -/
def flushTok (acc : List Char) : List String :=
  if acc.isEmpty then [] else [String.mk acc.reverse]

/-- Tokenizer worker: split a character stream into maximal
identifier-character runs. -/
def tokAux : List Char → List Char → List String
  | [], acc => flushTok acc
  | c :: cs, acc =>
    if isIdentChar c then tokAux cs (c :: acc) else flushTok acc ++ tokAux cs []

/-- The identifier tokens of a string. -/
def tokens (s : String) : List String := tokAux s.data []

/-- Is `s` a single nonempty identifier? -/
def identOk (s : String) : Bool := !s.data.isEmpty && s.data.all isIdentChar

/-- Does the string end in a non-identifier character (or is empty)? -/
def sepEnd (s : String) : Bool :=
  match s.data.getLast? with
  | none => true
  | some c => !isIdentChar c

/-- Does the string begin with a non-identifier character (or is empty)? -/
def sepStart (s : String) : Bool :=
  match s.data.head? with
  | none => true
  | some c => !isIdentChar c

/-- The names declared in a token stream: every token directly following
a `SCHEMETYPE_T`, `THUNK_T` or `int` type token. -/
def declNamesOf : List String → List String
  | [] => []
  | [_] => []
  | a :: b :: rest =>
    if a = "SCHEMETYPE_T" || a = "THUNK_T" || a = "int" then b :: declNamesOf (b :: rest)
    else declNamesOf (b :: rest)

/-- All identifier tokens of one (declaration, operation) pair. -/
def pairTokens (p : String × String) : List String := tokens p.1 ++ tokens p.2

/-- The names declared by one (declaration, operation) pair — operations
count too, because conditionals inline their branches' declarations
into the operation text. -/
def pairDeclNames (p : String × String) : List String :=
  declNamesOf (tokens p.1) ++ declNamesOf (tokens p.2)

/-- The names declared by a whole declaration/operation list. -/
def listDeclNames (l : List (String × String)) : List String :=
  (l.map pairDeclNames).flatten

/-- The closed set of fixed runtime/keyword tokens that generated
fragments may mention: emitted type names, runtime field and helper
names, C keywords, the tag strings, and the boolean payloads. -/
def fixedToks : List String :=
  ["SCHEMETYPE_T", "THUNK_T", "LAMBDA_T", "new", "schemetype_t", "nullptr",
   "type", "num", "str", "lam", "std", "move", "shared_ptr", "string",
   "append", "compare", "if", "else", "NUM", "STR", "0", "1"]

mutual
/-- The identifier tokens an AST may legitimately contribute to emitted
text: variable names, lambda names, recursive-binding names, and the
tokens of rendered literal payloads. -/
def astToks : Exp → List String
  | .VarExp n => [n]
  | .NumExp v => tokens (toString v)
  | .BoolExp _ => []
  | .StrExp s => tokens s
  | .VoidExp => []
  | .LamExp nm args body => nm :: (astToksList args ++ astToks body)
  | .AppExp f args => astToks f ++ astToksList args
  | .IfExp c t e => astToks c ++ astToks t ++ astToks e
  | .LetRecExp bs body => astToksBinds bs ++ astToks body
  | .BeginExp es => astToksList es
  | .SetExp _ e => astToks e
  | .SetThenExp _ e k => astToks e ++ astToks k
  | .CppCodeExp _ => []

/-- `astToks` over children. -/
def astToksList : List Exp → List String
  | [] => []
  | e :: es => astToks e ++ astToksList es

/-- `astToks` over recursive bindings (binder names included). -/
def astToksBinds : List (String × Exp) → List String
  | [] => []
  | (v, e) :: bs => v :: (astToks e ++ astToksBinds bs)
end

/-- Does the operand count `k` (full argument count of the application,
continuation included) fit the table `op` is found in?  Unary numeric
operators take one operand plus the continuation, binary ones two. -/
def primArityOk (op : String) (k : Nat) : Bool :=
  if NumPrimOps.contains op then
    ((NumPrimOps.unary_ops.lookup op).isSome && k == 2) ||
    ((NumPrimOps.binary_ops.lookup op).isSome && k == 3)
  else StrPrimOps.contains op && k == 3

/-- The claim's callee condition: an application callee must be a plain
variable — a primitive name applied at the right arity, or an ordinary
identifier. -/
def calleeOk : Exp → Nat → Bool
  | .VarExp n, k => if is_primop n then primArityOk n k else identOk n
  | _, _ => false

/-- Is this formal parameter a variable node with an identifier name? -/
def varParamOk : Exp → Bool
  | .VarExp x => identOk x
  | _ => false

mutual
/-- The well-formed input trees of the consistency claim: no
sequence/assignment/void/embedded-fragment nodes, application callees
are plain variables or primitive names applied at the right arity, and
every name is a nonempty identifier. -/
def goodExp : Exp → Bool
  | .VarExp n => identOk n
  | .NumExp _ => true
  | .BoolExp _ => true
  | .StrExp _ => true
  | .VoidExp => false
  | .LamExp nm args body =>
    identOk nm && args.all varParamOk && goodExp body
  | .AppExp f args =>
    calleeOk f args.length && goodExpList args
  | .IfExp c t e => goodExp c && goodExp t && goodExp e
  | .LetRecExp bs body => goodBinds bs && goodExp body
  | .BeginExp _ => false
  | .SetExp _ _ => false
  | .SetThenExp _ _ _ => false
  | .CppCodeExp _ => false

/-- `goodExp` over children. -/
def goodExpList : List Exp → Bool
  | [] => true
  | e :: es => goodExp e && goodExpList es

/-- `goodExp` over recursive bindings. -/
def goodBinds : List (String × Exp) → Bool
  | [] => true
  | (v, e) :: bs => identOk v && goodExp e && goodBinds bs
end

/-- The output property of the consistency claim for one fragment: its
value identifier is a single identifier, that identifier is declared by
the fragment's own list or originates in the AST, and every identifier
token of every declaration/operation pair is a fixed runtime token, an
AST-originating token (from `S`), or a name declared by the list. -/
def fragOk (S : List String) (frag : CppCode) : Prop :=
  identOk frag.code = true ∧
  (frag.code ∈ listDeclNames frag.decls ∨ frag.code ∈ S) ∧
  ∀ p ∈ frag.decls, ∀ t ∈ pairTokens p,
    t ∈ fixedToks ∨ t ∈ S ∨ t ∈ listDeclNames frag.decls

/-- A holes dictionary is adequate for `e` relative to the allowed-token
set `S` when every lambda of `e` has an entry whose hole names are
identifiers drawn from `S`. -/
def holesOkFor (S : List String) (H : HDict) (e : Exp) : Prop :=
  ∀ pr ∈ lamNameParams e, ∃ hs, H.lookup pr.1 = some hs ∧
    ∀ x ∈ hs, identOk x = true ∧ x ∈ S

/-- All variable-reference names of a tree (what the running set of the
hole analysis can ever contain). -/
def varNamesE : Exp → List String
  | .VarExp n => [n]
  | .NumExp _ => []
  | .BoolExp _ => []
  | .StrExp _ => []
  | .VoidExp => []
  | .LamExp _ args body => varNamesEList args ++ varNamesE body
  | .AppExp f args => varNamesE f ++ varNamesEList args
  | .IfExp c t e => varNamesE c ++ varNamesE t ++ varNamesE e
  | .LetRecExp bs body => varNamesEBinds bs ++ varNamesE body
  | .BeginExp es => varNamesEList es
  | .SetExp _ e => varNamesE e
  | .SetThenExp _ e k => varNamesE e ++ varNamesE k
  | .CppCodeExp _ => []
where
  /-- `varNamesE` over children. -/
  varNamesEList : List Exp → List String
  | [] => []
  | e :: es => varNamesE e ++ varNamesEList es
  /-- `varNamesE` over recursive bindings. -/
  varNamesEBinds : List (String × Exp) → List String
  | [] => []
  | (_, e) :: bs => varNamesE e ++ varNamesEBinds bs

/-- Traversal-state invariant used to bound hole values: every name in
the running set and in every recorded hole list is an identifier drawn
from the allowed-token set `S`. -/
def holesSInv (S : List String) (s : List String × HDict) : Prop :=
  (∀ x ∈ s.1, identOk x = true ∧ x ∈ S) ∧
  (∀ nm hs, s.2.lookup nm = some hs → ∀ x ∈ hs, identOk x = true ∧ x ∈ S)

/-! ## Association-list helper lemmas -/

theorem lookup_mem {β : Type} {l : List (String × β)} {k : String} {v : β}
    (h : l.lookup k = some v) : (k, v) ∈ l := by
  induction l with
  | nil => simp [List.lookup] at h
  | cons x xs ih =>
    rw [List.lookup] at h
    by_cases hk : k == x.1
    · simp [hk] at h
      have := (beq_iff_eq (a := k) (b := x.1)).mp hk
      cases x
      simp_all
    · simp [hk] at h
      exact List.mem_cons_of_mem _ (ih h)

theorem lookup_append_of_none {β : Type} {l : List (String × β)} {k : String}
    (l' : List (String × β)) (h : l.lookup k = none) :
    (l ++ l').lookup k = l'.lookup k := by
  induction l with
  | nil => simp
  | cons x xs ih =>
    rw [List.lookup] at h
    by_cases hk : k == x.1
    · simp [hk] at h
    · rw [List.cons_append, List.lookup]
      simp only [hk]
      simp only [hk] at h
      exact ih h

theorem lookup_append_some {β : Type} {l : List (String × β)} {k : String} {v : β}
    (l' : List (String × β)) (h : l.lookup k = some v) :
    (l ++ l').lookup k = some v := by
  induction l with
  | nil => simp [List.lookup] at h
  | cons x xs ih =>
    rw [List.lookup] at h
    rw [List.cons_append, List.lookup]
    by_cases hk : k == x.1
    · simp only [hk] at h ⊢
      exact h
    · simp only [hk] at h ⊢
      exact ih h

theorem lookup_map_replaceEntry (d : HDict) (nm : String) (v : List String) (k : String) :
    (d.map (replaceEntry nm v)).lookup k =
      if k = nm then (d.lookup nm).map (fun _ => v) else d.lookup k := by
  induction d with
  | nil => by_cases h : k = nm <;> simp [h, List.lookup]
  | cons p d ih =>
    obtain ⟨a, b⟩ := p
    rw [List.map_cons]
    by_cases ha : a = nm
    · rw [show replaceEntry nm v (a, b) = (nm, v) by rw [replaceEntry, if_pos ha]]
      by_cases hk : k = nm
      · subst hk ha
        simp [List.lookup, ih]
      · simp only [List.lookup, show (k == nm) = false by simp [hk],
          show (k == a) = false by simp [ha ▸ hk], ih, if_neg hk]
    · rw [show replaceEntry nm v (a, b) = (a, b) by rw [replaceEntry, if_neg ha]]
      by_cases hk : k = a
      · subst hk
        simp only [List.lookup, beq_self_eq_true]
        rw [if_neg ha]
      · simp only [List.lookup, show (k == a) = false by simp [hk], ih]
        by_cases hkn : k = nm
        · subst hkn
          rw [if_pos rfl, if_pos rfl]
          simp only [List.lookup, show (k == a) = false by simp [hk]]
        · rw [if_neg hkn, if_neg hkn]

theorem lookup_dictUpd_self (d : HDict) (nm : String) (v : List String) :
    (dictUpd d nm v).lookup nm = some v := by
  rw [dictUpd]
  by_cases h : (d.lookup nm).isSome
  · rw [if_pos h, lookup_map_replaceEntry, if_pos rfl]
    obtain ⟨w, hw⟩ := Option.isSome_iff_exists.mp h
    rw [hw]
    rfl
  · rw [if_neg h, lookup_append_of_none _ (Option.not_isSome_iff_eq_none.mp h)]
    simp [List.lookup]

theorem lookup_dictUpd_other (d : HDict) (nm : String) (v : List String)
    (k : String) (h : k ≠ nm) :
    (dictUpd d nm v).lookup k = d.lookup k := by
  rw [dictUpd]
  by_cases hmem : (d.lookup nm).isSome
  · rw [if_pos hmem, lookup_map_replaceEntry, if_neg h]
  · rw [if_neg hmem]
    cases hk : d.lookup k with
    | some w => exact lookup_append_some _ hk
    | none =>
      rw [lookup_append_of_none _ hk]
      simp [List.lookup, show (k == nm) = false by simp [h]]

theorem foldl_min_le_init (xs : List Nat) : ∀ x, xs.foldl Nat.min x ≤ x := by
  induction xs with
  | nil => intro x; simp
  | cons y ys ih =>
    intro x
    calc (y :: ys).foldl Nat.min x = ys.foldl Nat.min (Nat.min x y) := rfl
    _ ≤ Nat.min x y := ih _
    _ ≤ x := Nat.min_le_left _ _

theorem init_le_foldl_max (xs : List Nat) : ∀ x, x ≤ xs.foldl Nat.max x := by
  induction xs with
  | nil => intro x; simp
  | cons y ys ih =>
    intro x
    calc x ≤ Nat.max x y := Nat.le_max_left _ _
    _ ≤ ys.foldl Nat.max (Nat.max x y) := ih _
    _ = (y :: ys).foldl Nat.max x := rfl

theorem pyMin_le_pyMax {l : List Nat} {lo hi : Nat}
    (h1 : pyMin l = some lo) (h2 : pyMax l = some hi) : lo ≤ hi := by
  cases l with
  | nil => simp [pyMin] at h1
  | cons x xs =>
    simp only [pyMin, Option.some.injEq] at h1
    simp only [pyMax, Option.some.injEq] at h2
    calc lo = xs.foldl Nat.min x := h1.symm
    _ ≤ x := foldl_min_le_init xs x
    _ ≤ xs.foldl Nat.max x := init_le_foldl_max xs x
    _ = hi := h2

theorem joinSep_cons2 (sep x y : String) (ys : List String) :
    joinSep sep (x :: y :: ys) = x ++ sep ++ joinSep sep (y :: ys) := rfl

theorem joinSep_replicate_length (i : Nat) :
    (joinSep ", " (List.replicate i "SCHEMETYPE_T")).length =
      if i = 0 then 0 else 14 * i - 2 := by
  induction i with
  | zero => rfl
  | succ n ih =>
    cases n with
    | zero => rfl
    | succ m =>
      rw [show List.replicate (m + 2) "SCHEMETYPE_T" =
            "SCHEMETYPE_T" :: "SCHEMETYPE_T" :: List.replicate m "SCHEMETYPE_T" from rfl,
          joinSep_cons2]
      simp only [String.length_append]
      rw [show ("SCHEMETYPE_T" :: List.replicate m "SCHEMETYPE_T" : List String) =
            List.replicate (m + 1) "SCHEMETYPE_T" from rfl, ih]
      have h1 : "SCHEMETYPE_T".length = 12 := rfl
      have h2 : ", ".length = 2 := rfl
      simp only [Nat.succ_ne_zero, reduceIte]
      omega

theorem lambdaBaseSig_length (i : Nat) :
    (lambdaBaseSig i).length = 27 + (if i = 0 then 0 else 14 * i - 2) := by
  rw [lambdaBaseSig]
  simp only [String.length_append, joinSep_replicate_length]
  have h1 : "THUNK_T operator()(".length = 19 := rfl
  have h2 : ") const;".length = 8 := rfl
  omega

theorem lambdaBaseSig_inj {i j : Nat} (h : lambdaBaseSig i = lambdaBaseSig j) : i = j := by
  have := congrArg String.length h
  rw [lambdaBaseSig_length, lambdaBaseSig_length] at this
  by_cases hi : i = 0 <;> by_cases hj : j = 0 <;> simp [hi, hj] at this ⊢ <;> omega


theorem contains_eq_true_of_mem {l : List String} {y : String} (h : y ∈ l) :
    l.contains y = true := List.elem_iff.mpr h

theorem mem_of_contains_eq_true {l : List String} {y : String} (h : l.contains y = true) :
    y ∈ l := List.elem_iff.mp h

theorem mem_setAdd {r : List String} {x y : String} (h : y ∈ setAdd r x) : y ∈ r ∨ y = x := by
  rw [setAdd] at h
  by_cases hc : r.contains x
  · rw [if_pos hc] at h; exact Or.inl h
  · rw [if_neg hc] at h
    rcases List.mem_append.mp h with h1 | h1
    · exact Or.inl h1
    · exact Or.inr (List.mem_singleton.mp h1)

theorem mem_setSub {r ps : List String} {y : String} (h : y ∈ setSub r ps) :
    y ∈ r ∧ y ∉ ps := by
  rw [setSub] at h
  have hm := List.mem_filter.mp h
  refine ⟨hm.1, fun hc => ?_⟩
  have h2 := hm.2
  rw [contains_eq_true_of_mem hc] at h2
  simp at h2

theorem setSub_not_mem {r ps : List String} {y : String} (hy : y ∈ ps) :
    y ∉ setSub r ps := fun h => (mem_setSub h).2 hy

mutual
theorem findHoles_inv (root : Exp)
    (hcoh : ∀ p q, p ∈ lamNameParams root → q ∈ lamNameParams root → p.1 = q.1 → p.2 = q.2) :
    ∀ (e : Exp), (∀ p, p ∈ lamNameParams e → p ∈ lamNameParams root) →
      ∀ s, holesInv root s → holesInv root (findHoles e s)
  | .VarExp n, _, (r, d), hinv => by
    rw [findHoles]
    refine ⟨?_, hinv.2⟩
    intro x hx
    by_cases hp : is_primop n
    · simp only [hp, if_true, reduceIte] at hx
      exact hinv.1 x hx
    · simp only [hp, if_false, Bool.false_eq_true, reduceIte] at hx
      rcases mem_setAdd hx with h1 | h1
      · exact hinv.1 x h1
      · subst h1
        exact Bool.not_eq_true _ ▸ (by simpa using hp)
  | .NumExp _, _, s, hinv => hinv
  | .BoolExp _, _, s, hinv => hinv
  | .StrExp _, _, s, hinv => hinv
  | .VoidExp, _, s, hinv => hinv
  | .LamExp nm args body, hsub, s, hinv => by
    rw [findHoles]
    have hsub1 : ∀ p, p ∈ lamNameParamsList args → p ∈ lamNameParams root := by
      intro p hp
      exact hsub p (by rw [lamNameParams]; exact List.mem_append_left _ (List.mem_append_left _ hp))
    have hsub2 : ∀ p, p ∈ lamNameParams body → p ∈ lamNameParams root := by
      intro p hp
      exact hsub p (by
        rw [lamNameParams]
        exact List.mem_append_left _ (List.mem_append_right _ hp))
    have hself : (nm, varNamesOf args) ∈ lamNameParams root := by
      refine hsub _ ?_
      rw [lamNameParams]
      exact List.mem_append_right _ (List.mem_singleton.mpr rfl)
    have hinv1 := findHolesList_inv root hcoh args hsub1 s hinv
    have hinv2 := findHoles_inv root hcoh body hsub2 _ hinv1
    constructor
    · intro x hx
      exact hinv2.1 x (mem_setSub hx).1
    · intro nm' hs' hlook
      by_cases hnm : nm' = nm
      · subst hnm
        rw [lookup_dictUpd_self] at hlook
        obtain rfl : setSub (findHoles body (findHolesList args s)).1 (varNamesOf args) = hs' :=
          Option.some.inj hlook
        constructor
        · intro x hx
          exact hinv2.1 x (mem_setSub hx).1
        · intro ps hps p hp
          have := hcoh _ _ hps hself rfl
          simp only at this
          subst this
          exact setSub_not_mem hp
      · rw [lookup_dictUpd_other _ _ _ _ hnm] at hlook
        exact hinv2.2 nm' hs' hlook
  | .AppExp f args, hsub, s, hinv => by
    rw [findHoles]
    have hsubf : ∀ p, p ∈ lamNameParams f → p ∈ lamNameParams root := fun p hp =>
      hsub p (by rw [lamNameParams]; exact List.mem_append_left _ hp)
    have hsuba : ∀ p, p ∈ lamNameParamsList args → p ∈ lamNameParams root := fun p hp =>
      hsub p (by rw [lamNameParams]; exact List.mem_append_right _ hp)
    exact findHolesList_inv root hcoh args hsuba _ (findHoles_inv root hcoh f hsubf s hinv)
  | .IfExp c t e, hsub, s, hinv => by
    rw [findHoles]
    have hc : ∀ p, p ∈ lamNameParams c → p ∈ lamNameParams root := fun p hp =>
      hsub p (by rw [lamNameParams]; exact List.mem_append_left _ (List.mem_append_left _ hp))
    have ht : ∀ p, p ∈ lamNameParams t → p ∈ lamNameParams root := fun p hp =>
      hsub p (by rw [lamNameParams]; exact List.mem_append_left _ (List.mem_append_right _ hp))
    have he : ∀ p, p ∈ lamNameParams e → p ∈ lamNameParams root := fun p hp =>
      hsub p (by rw [lamNameParams]; exact List.mem_append_right _ hp)
    exact findHoles_inv root hcoh e he _
      (findHoles_inv root hcoh t ht _ (findHoles_inv root hcoh c hc s hinv))
  | .LetRecExp bs body, hsub, s, hinv => by
    rw [findHoles]
    have hb : ∀ p, p ∈ lamNameParamsBinds bs → p ∈ lamNameParams root := fun p hp =>
      hsub p (by rw [lamNameParams]; exact List.mem_append_left _ hp)
    have hbody : ∀ p, p ∈ lamNameParams body → p ∈ lamNameParams root := fun p hp =>
      hsub p (by rw [lamNameParams]; exact List.mem_append_right _ hp)
    exact findHoles_inv root hcoh body hbody _ (findHolesBinds_inv root hcoh bs hb s hinv)
  | .BeginExp es, hsub, s, hinv => by
    rw [findHoles]
    have he : ∀ p, p ∈ lamNameParamsList es → p ∈ lamNameParams root := fun p hp =>
      hsub p (by rw [lamNameParams]; exact hp)
    exact findHolesList_inv root hcoh es he s hinv
  | .SetExp _ e, hsub, s, hinv => by
    rw [findHoles]
    have he : ∀ p, p ∈ lamNameParams e → p ∈ lamNameParams root := fun p hp =>
      hsub p (by rw [lamNameParams]; exact hp)
    exact findHoles_inv root hcoh e he s hinv
  | .SetThenExp _ e k, hsub, s, hinv => by
    rw [findHoles]
    have he : ∀ p, p ∈ lamNameParams e → p ∈ lamNameParams root := fun p hp =>
      hsub p (by rw [lamNameParams]; exact List.mem_append_left _ hp)
    have hk : ∀ p, p ∈ lamNameParams k → p ∈ lamNameParams root := fun p hp =>
      hsub p (by rw [lamNameParams]; exact List.mem_append_right _ hp)
    exact findHoles_inv root hcoh k hk _ (findHoles_inv root hcoh e he s hinv)
  | .CppCodeExp _, _, s, hinv => hinv

theorem findHolesList_inv (root : Exp)
    (hcoh : ∀ p q, p ∈ lamNameParams root → q ∈ lamNameParams root → p.1 = q.1 → p.2 = q.2) :
    ∀ (es : List Exp), (∀ p, p ∈ lamNameParamsList es → p ∈ lamNameParams root) →
      ∀ s, holesInv root s → holesInv root (findHolesList es s)
  | [], _, s, hinv => hinv
  | e :: es, hsub, s, hinv => by
    rw [findHolesList]
    have he : ∀ p, p ∈ lamNameParams e → p ∈ lamNameParams root := fun p hp =>
      hsub p (by rw [lamNameParamsList]; exact List.mem_append_left _ hp)
    have hes : ∀ p, p ∈ lamNameParamsList es → p ∈ lamNameParams root := fun p hp =>
      hsub p (by rw [lamNameParamsList]; exact List.mem_append_right _ hp)
    exact findHolesList_inv root hcoh es hes _ (findHoles_inv root hcoh e he s hinv)

theorem findHolesBinds_inv (root : Exp)
    (hcoh : ∀ p q, p ∈ lamNameParams root → q ∈ lamNameParams root → p.1 = q.1 → p.2 = q.2) :
    ∀ (bs : List (String × Exp)), (∀ p, p ∈ lamNameParamsBinds bs → p ∈ lamNameParams root) →
      ∀ s, holesInv root s → holesInv root (findHolesBinds bs s)
  | [], _, s, hinv => hinv
  | (v, e) :: bs, hsub, s, hinv => by
    rw [findHolesBinds]
    have he : ∀ p, p ∈ lamNameParams e → p ∈ lamNameParams root := fun p hp =>
      hsub p (by rw [lamNameParamsBinds]; exact List.mem_append_left _ hp)
    have hbs : ∀ p, p ∈ lamNameParamsBinds bs → p ∈ lamNameParams root := fun p hp =>
      hsub p (by rw [lamNameParamsBinds]; exact List.mem_append_right _ hp)
    exact findHolesBinds_inv root hcoh bs hbs _ (findHoles_inv root hcoh e he s hinv)
end

/-! ### Tokenizer lemmas -/

theorem tokAux_append_sep {c : Char} (hc : isIdentChar c = false) :
    ∀ (xs : List Char) (acc : List Char) (ys : List Char),
      tokAux (xs ++ c :: ys) acc = tokAux xs acc ++ tokAux ys [] := by
  intro xs
  induction xs with
  | nil =>
    intro acc ys
    rw [List.nil_append]
    simp only [tokAux, hc, Bool.false_eq_true, reduceIte]
  | cons x xs ih =>
    intro acc ys
    rw [List.cons_append]
    simp only [tokAux]
    by_cases hx : isIdentChar x
    · rw [if_pos hx, ih, if_pos hx]
    · rw [if_neg hx, ih, if_neg hx, List.append_assoc]

theorem tokAux_ident_run :
    ∀ (l : List Char), (∀ c ∈ l, isIdentChar c = true) →
      ∀ (acc rest : List Char), tokAux (l ++ rest) acc = tokAux rest (l.reverse ++ acc) := by
  intro l
  induction l with
  | nil => intro _ acc rest; simp
  | cons x xs ih =>
    intro h acc rest
    rw [List.cons_append]
    simp only [tokAux, if_pos (h x (List.mem_cons_self x xs))]
    rw [ih (fun c hc => h c (List.mem_cons_of_mem x hc))]
    simp [List.append_assoc]

theorem string_mk_data (v : String) : String.mk v.data = v := by
  cases v
  rfl

theorem tokens_identOk {v : String} (hv : identOk v = true) : tokens v = [v] := by
  rw [identOk, Bool.and_eq_true] at hv
  have hall : ∀ c ∈ v.data, isIdentChar c = true := by
    have := hv.2
    rw [List.all_eq_true] at this
    exact this
  have hne : v.data ≠ [] := by
    intro h
    have := hv.1
    rw [h] at this
    simp at this
  rw [tokens, show v.data = v.data ++ ([] : List Char) from (List.append_nil _).symm,
    tokAux_ident_run v.data hall]
  simp only [tokAux, List.append_nil, flushTok]
  rw [if_neg (by simpa using fun h => hne (List.reverse_eq_nil_iff.mp h)), List.reverse_reverse,
    string_mk_data]

theorem tokens_empty : tokens "" = [] := rfl

theorem tokens_append_sepStart {b : String} (hb : sepStart b = true) (a : String) :
    tokens (a ++ b) = tokens a ++ tokens b := by
  rw [sepStart] at hb
  cases hd : b.data with
  | nil =>
    have : b = "" := by cases b; simp_all
    subst this
    simp only [tokens, String.data_append, show ("" : String).data = [] from rfl, List.append_nil]
    rw [show tokAux [] [] = [] from rfl, List.append_nil]
  | cons c ys =>
    rw [hd] at hb
    simp only [List.head?] at hb
    rw [tokens, tokens, tokens, String.data_append, hd, tokAux_append_sep (by simpa using hb)]
    congr 1
    simp only [tokAux, show isIdentChar c = false by simpa using hb, Bool.false_eq_true,
      reduceIte, flushTok, List.isEmpty_nil, if_pos]
    rfl

theorem tokens_append_sepEnd {a : String} (ha : sepEnd a = true) (b : String) :
    tokens (a ++ b) = tokens a ++ tokens b := by
  rw [sepEnd] at ha
  cases hd : a.data.getLast? with
  | none =>
    have : a.data = [] := List.getLast?_eq_none_iff.mp hd
    have ha' : a = "" := by cases a; simp_all
    subst ha'
    simp only [tokens, String.data_append, show ("" : String).data = [] from rfl, List.nil_append]
    rw [show tokAux [] [] = [] from rfl, List.nil_append]
  | some c =>
    rw [hd] at ha
    obtain ⟨xs, hxs⟩ := List.getLast?_eq_some_iff.mp hd
    rw [tokens, tokens, tokens, String.data_append, hxs, List.append_assoc, List.singleton_append,
      tokAux_append_sep (by simpa using ha), tokAux_append_sep (by simpa using ha)]
    simp only [tokAux, List.append_assoc]
    rfl

theorem sepEnd_append {b : String} (hb : b.data ≠ []) (a : String) :
    sepEnd (a ++ b) = sepEnd b := by
  rw [sepEnd, sepEnd, String.data_append, List.getLast?_append_of_ne_nil _ hb]

example : tokens "\nTHUNK_T " = ["THUNK_T"] := by rfl
example : tokens "(new schemetype_t)" = ["new", "schemetype_t"] := by rfl
example : sepEnd "SCHEMETYPE_T " = true := by rfl
example : sepStart ";" = true := by rfl

theorem tokens_joinSep_idents (hs : List String) (h : ∀ x ∈ hs, identOk x = true) :
    tokens (joinSep ", " hs) = hs := by
  induction hs with
  | nil => rfl
  | cons x xs ih =>
    cases xs with
    | nil =>
      rw [joinSep, tokens_identOk (h x (List.mem_cons_self _ _))]
    | cons y ys =>
      rw [joinSep_cons2, tokens_append_sepEnd (by rw [sepEnd_append (by decide)]; rfl),
        tokens_append_sepStart (by rfl), tokens_identOk (h x (List.mem_cons_self _ _)),
        show tokens ", " = [] from rfl,
        ih (fun z hz => h z (List.mem_cons_of_mem _ hz))]
      rfl

theorem tokens_joinNonEmptyAux (xs : List String) :
    ∀ acc, tokens (joinNonEmpty.joinNonEmptyAux "\n" xs acc) =
      tokens acc ++ (xs.map tokens).flatten := by
  induction xs with
  | nil => intro acc; simp [joinNonEmpty.joinNonEmptyAux]
  | cons x xs ih =>
    intro acc
    rw [joinNonEmpty.joinNonEmptyAux, ih,
      tokens_append_sepEnd (by rw [sepEnd_append (by decide)]; rfl),
      tokens_append_sepStart (by rfl), show tokens "\n" = [] from rfl]
    simp [List.append_assoc]

theorem flatten_tokens_filter (l : List String) :
    ((l.filter (fun s => s != "")).map tokens).flatten = (l.map tokens).flatten := by
  induction l with
  | nil => rfl
  | cons x xs ih =>
    by_cases hx : x = ""
    · subst hx
      rw [List.filter_cons]
      simp only [show (("" : String) != "") = false from rfl, Bool.false_eq_true, reduceIte]
      rw [List.map_cons, List.flatten_cons, tokens_empty, List.nil_append, ih]
    · rw [List.filter_cons]
      rw [if_pos (by simpa using hx)]
      rw [List.map_cons, List.flatten_cons, ih, List.map_cons, List.flatten_cons]

theorem tokens_joinNonEmpty (l : List String) :
    tokens (joinNonEmpty "\n" l) = (l.map tokens).flatten := by
  rw [joinNonEmpty, ← flatten_tokens_filter]
  cases hf : l.filter (fun s => s != "") with
  | nil => rfl
  | cons x xs =>
    cases xs with
    | nil => simp
    | cons y ys =>
      rw [tokens_joinNonEmptyAux]
      rfl

theorem declNamesOf_tail {x : String} {l : List String} (h : x ∈ declNamesOf l)
    (a : String) : x ∈ declNamesOf (a :: l) := by
  cases l with
  | nil => simp [declNamesOf] at h
  | cons b rest =>
    rw [declNamesOf]
    by_cases ha : a = "SCHEMETYPE_T" || a = "THUNK_T" || a = "int"
    · rw [if_pos ha]
      exact List.mem_cons_of_mem _ h
    · rw [if_neg ha]
      exact h

theorem declNamesOf_append_right {x : String} {B : List String} (h : x ∈ declNamesOf B) :
    ∀ A, x ∈ declNamesOf (A ++ B) := by
  intro A
  induction A with
  | nil => exact h
  | cons a A ih => exact declNamesOf_tail ih a

theorem declNamesOf_append_left {x : String} :
    ∀ {A : List String}, x ∈ declNamesOf A → ∀ B, x ∈ declNamesOf (A ++ B)
  | [], h, B => by simp [declNamesOf] at h
  | [a], h, B => by simp [declNamesOf] at h
  | a :: b :: rest, h, B => by
    rw [declNamesOf] at h
    rw [List.cons_append, List.cons_append, declNamesOf]
    by_cases ha : a = "SCHEMETYPE_T" || a = "THUNK_T" || a = "int"
    · rw [if_pos ha] at h ⊢
      rcases List.mem_cons.mp h with h1 | h1
      · exact List.mem_cons.mpr (Or.inl h1)
      · exact List.mem_cons.mpr (Or.inr (by
          have := declNamesOf_append_left h1 B
          simpa using this))
    · rw [if_neg ha] at h ⊢
      have := declNamesOf_append_left h B
      simpa using this

theorem declNamesOf_adjacent {a b : String}
    (ha : a = "SCHEMETYPE_T" ∨ a = "THUNK_T" ∨ a = "int") (l : List String) :
    b ∈ declNamesOf (a :: b :: l) := by
  rw [declNamesOf, if_pos (by rcases ha with h | h | h <;> simp [h])]
  exact List.mem_cons_self _ _

theorem digitChar_ident {m : Nat} (h : m < 10) : isIdentChar (Nat.digitChar m) = true := by
  interval_cases m <;> decide

theorem toDigitsCore_ident (fuel : Nat) :
    ∀ (n : Nat) (ds : List Char), (∀ c ∈ ds, isIdentChar c = true) →
      ∀ c ∈ Nat.toDigitsCore 10 fuel n ds, isIdentChar c = true := by
  induction fuel with
  | zero => intro n ds hds; exact hds
  | succ f ih =>
    intro n ds hds c hc
    rw [Nat.toDigitsCore] at hc
    by_cases hn : n / 10 = 0
    · rw [if_pos hn] at hc
      rcases List.mem_cons.mp hc with h1 | h1
      · subst h1; exact digitChar_ident (Nat.mod_lt _ (by omega))
      · exact hds c h1
    · rw [if_neg hn] at hc
      refine ih (n / 10) _ ?_ c hc
      intro d hd
      rcases List.mem_cons.mp hd with h1 | h1
      · subst h1; exact digitChar_ident (Nat.mod_lt _ (by omega))
      · exact hds d h1

theorem toDigitsCore_ne_nil (fuel : Nat) :
    ∀ (n : Nat) (ds : List Char), (Nat.toDigitsCore 10 (fuel + 1) n ds).length ≥ ds.length + 1 := by
  induction fuel with
  | zero =>
    intro n ds
    rw [Nat.toDigitsCore]
    by_cases hn : n / 10 = 0
    · rw [if_pos hn]; simp
    · rw [if_neg hn]; rw [Nat.toDigitsCore]; simp
  | succ f ih =>
    intro n ds
    rw [Nat.toDigitsCore]
    by_cases hn : n / 10 = 0
    · rw [if_pos hn]; simp
    · rw [if_neg hn]
      have := ih (n / 10) (Nat.digitChar (n % 10) :: ds)
      simp only [List.length_cons] at this
      omega

theorem natToString_identOk (n : Nat) : identOk (toString n) = true := by
  have hdata : (toString n).data = Nat.toDigits 10 n := rfl
  rw [identOk, hdata, Bool.and_eq_true]
  constructor
  · rw [Nat.toDigits]
    have := toDigitsCore_ne_nil n n []
    simp only [List.length_nil] at this
    rcases hn : Nat.toDigitsCore 10 (n + 1) n [] with _ | _
    · rw [hn] at this; simp at this
    · simp
  · rw [List.all_eq_true, Nat.toDigits]
    exact toDigitsCore_ident (n + 1) n [] (by intro c hc; simp at hc)

theorem identOk_append {a b : String} (ha : a.data.all isIdentChar = true)
    (hb : identOk b = true) : identOk (a ++ b) = true := by
  rw [identOk, Bool.and_eq_true] at hb ⊢
  rw [String.data_append]
  constructor
  · have h1 := hb.1
    have hbne : b.data ≠ [] := by
      intro hc
      rw [hc] at h1
      simp at h1
    cases hab : a.data ++ b.data with
    | nil => exact absurd (List.append_eq_nil.mp hab).2 hbne
    | cons x xs => rfl
  · rw [List.all_append, ha, hb.2]
    rfl

theorem gensym_identOk (pre : String) (hpre : pre.data.all isIdentChar = true) (c : Nat) :
    identOk (pre ++ toString c) = true :=
  identOk_append hpre (natToString_identOk c)

theorem tokens_declare {v : String} (hv : identOk v = true) :
    tokens (declare v) = ["SCHEMETYPE_T", v, "new", "schemetype_t"] := by
  rw [show declare v = "SCHEMETYPE_T " ++ v ++ "(new schemetype_t)" ++ ";" from rfl,
    tokens_append_sepStart (by rfl), tokens_append_sepStart (by rfl),
    tokens_append_sepEnd (by rfl), tokens_identOk hv,
    show tokens "SCHEMETYPE_T " = ["SCHEMETYPE_T"] from rfl,
    show tokens "(new schemetype_t)" = ["new", "schemetype_t"] from rfl,
    show tokens ";" = [] from rfl]
  rfl

theorem tokens_numop {v : String} (hv : identOk v = true) (w : String) :
    tokens (v ++ "->type = " ++ NUM ++ ";\n" ++ v ++ "->num = " ++ w ++ ";") =
      [v, "type", "NUM", v, "num"] ++ tokens w := by
  rw [tokens_append_sepStart (by rfl),
    tokens_append_sepEnd (by rw [sepEnd_append (by decide)]; rfl),
    tokens_append_sepStart (by rfl),
    tokens_append_sepEnd (by rw [sepEnd_append (by decide)]; rfl),
    tokens_append_sepStart (by rfl),
    tokens_append_sepEnd (by rw [sepEnd_append (by decide)]; rfl),
    tokens_append_sepStart (by rfl),
    tokens_identOk hv,
    show tokens "->type = " = ["type"] from rfl,
    show tokens NUM = ["NUM"] from rfl,
    show tokens ";\n" = [] from rfl,
    show tokens "->num = " = ["num"] from rfl,
    show tokens ";" = [] from rfl]
  simp

theorem tokens_strop {v : String} (hv : identOk v = true) (w : String) :
    tokens (v ++ "->type = " ++ STR ++ ";\n" ++ v ++ "->str = " ++ w ++ ";") =
      [v, "type", "STR", v, "str"] ++ tokens w := by
  rw [tokens_append_sepStart (by rfl),
    tokens_append_sepEnd (by rw [sepEnd_append (by decide)]; rfl),
    tokens_append_sepStart (by rfl),
    tokens_append_sepEnd (by rw [sepEnd_append (by decide)]; rfl),
    tokens_append_sepStart (by rfl),
    tokens_append_sepEnd (by rw [sepEnd_append (by decide)]; rfl),
    tokens_append_sepStart (by rfl),
    tokens_identOk hv,
    show tokens "->type = " = ["type"] from rfl,
    show tokens STR = ["STR"] from rfl,
    show tokens ";\n" = [] from rfl,
    show tokens "->str = " = ["str"] from rfl,
    show tokens ";" = [] from rfl]
  simp

theorem tokens_quoted (s : String) : tokens ("\"" ++ s ++ "\"") = tokens s := by
  rw [tokens_append_sepStart (by rfl), tokens_append_sepEnd (by rfl),
    show tokens "\"" = [] from rfl]
  simp

theorem tokens_lamInst {tmp cls : String} (htmp : identOk tmp = true)
    (hcls : identOk cls = true) {hs : List String} (hhs : ∀ x ∈ hs, identOk x = true) :
    tokens (lamInstantiation tmp cls hs) = [tmp, "lam", "LAMBDA_T", "new", cls] ++ hs := by
  rw [lamInstantiation,
    tokens_append_sepStart (by rfl),
    tokens_append_sepEnd (by rw [sepEnd_append (by decide)]; rfl),
    tokens_append_sepStart (by rfl),
    tokens_append_sepEnd (by rw [sepEnd_append (by decide)]; rfl),
    tokens_append_sepStart (by rfl),
    tokens_identOk htmp, tokens_identOk hcls, tokens_joinSep_idents hs hhs,
    show tokens "->lam = LAMBDA_T(new " = ["lam", "LAMBDA_T", "new"] from rfl,
    show tokens "(" = [] from rfl,
    show tokens "));" = [] from rfl]
  simp

theorem tokens_thunkDecl {tmp : String} (htmp : identOk tmp = true) :
    tokens ("THUNK_T " ++ tmp ++ "(nullptr);") = ["THUNK_T", tmp, "nullptr"] := by
  rw [tokens_append_sepStart (by rfl),
    tokens_append_sepEnd (by rfl),
    tokens_identOk htmp,
    show tokens "THUNK_T " = ["THUNK_T"] from rfl,
    show tokens "(nullptr);" = ["nullptr"] from rfl]
  rfl

theorem tokens_appPrimDecl {prim tmp : String} (hprim : identOk prim = true)
    (htmp : identOk tmp = true) :
    tokens (declare prim ++ "\nTHUNK_T " ++ tmp ++ "(nullptr);") =
      ["SCHEMETYPE_T", prim, "new", "schemetype_t", "THUNK_T", tmp, "nullptr"] := by
  rw [tokens_append_sepStart (by rfl),
    tokens_append_sepEnd (by rw [sepEnd_append (by decide)]; rfl),
    tokens_append_sepStart (by rfl),
    tokens_declare hprim, tokens_identOk htmp,
    show tokens "\nTHUNK_T " = ["THUNK_T"] from rfl,
    show tokens "(nullptr);" = ["nullptr"] from rfl]
  rfl

theorem tokens_appPrimOp {prim typ tmp kont : String} (hprim : identOk prim = true)
    (htyp : tokens typ = [typ]) (htmp : identOk tmp = true) (hkont : identOk kont = true)
    (body : String) :
    tokens (prim ++ "->type = " ++ typ ++ ";\n" ++ body ++ "\n" ++ tmp ++
      " = std::move((*" ++ kont ++ "->lam)(" ++ prim ++ "));") =
      [prim, "type", typ] ++ tokens body ++ [tmp, "std", "move", kont, "lam", prim] := by
  rw [tokens_append_sepStart (by rfl),
    tokens_append_sepEnd (by rw [sepEnd_append (by decide)]; rfl),
    tokens_append_sepStart (by rfl),
    tokens_append_sepEnd (by rw [sepEnd_append (by decide)]; rfl),
    tokens_append_sepStart (by rfl),
    tokens_append_sepEnd (by rw [sepEnd_append (by decide)]; rfl),
    tokens_append_sepStart (by rfl),
    tokens_append_sepEnd (by rw [sepEnd_append (by decide)]; rfl),
    tokens_append_sepStart (by rfl),
    tokens_append_sepEnd (by rw [sepEnd_append (by decide)]; rfl),
    tokens_append_sepStart (by rfl),
    tokens_identOk hprim, tokens_identOk htmp, tokens_identOk hkont, htyp,
    show tokens "->type = " = ["type"] from rfl,
    show tokens ";\n" = [] from rfl,
    show tokens "\n" = [] from rfl,
    show tokens " = std::move((*" = ["std", "move"] from rfl,
    show tokens "->lam)(" = ["lam"] from rfl,
    show tokens "));" = [] from rfl]
  simp

theorem tokens_appVarOp {tmp f : String} (htmp : identOk tmp = true)
    (hf : identOk f = true) {codes : List String} (hcodes : ∀ x ∈ codes, identOk x = true) :
    tokens (tmp ++ " = std::move((*" ++ f ++ "->lam)(" ++ joinSep ", " codes ++ "));") =
      [tmp, "std", "move", f, "lam"] ++ codes := by
  rw [tokens_append_sepStart (by rfl),
    tokens_append_sepEnd (by rw [sepEnd_append (by decide)]; rfl),
    tokens_append_sepStart (by rfl),
    tokens_append_sepEnd (by rw [sepEnd_append (by decide)]; rfl),
    tokens_append_sepStart (by rfl),
    tokens_identOk htmp, tokens_identOk hf, tokens_joinSep_idents codes hcodes,
    show tokens " = std::move((*" = ["std", "move"] from rfl,
    show tokens "->lam)(" = ["lam"] from rfl,
    show tokens "));" = [] from rfl]
  simp

theorem tokens_ifOp {c tmp tc ec : String} (hc : identOk c = true)
    (htmp : identOk tmp = true) (htc : identOk tc = true) (hec : identOk ec = true)
    (tds tos eds eos : String) :
    tokens ("if (" ++ c ++ "->num) \x7b\n  " ++ tds ++ "\n  " ++ tos ++ "\n  " ++ tmp ++
      " = std::move(" ++ tc ++ ");\n\x7d\nelse \x7b\n  " ++ eds ++ "\n  " ++ eos ++ "\n  " ++
      tmp ++ " = std::move(" ++ ec ++ ");\n\x7d") =
      ["if", c, "num"] ++ tokens tds ++ tokens tos ++ [tmp, "std", "move", tc, "else"] ++
        tokens eds ++ tokens eos ++ [tmp, "std", "move", ec] := by
  rw [tokens_append_sepStart (by rfl),
    tokens_append_sepEnd (by rw [sepEnd_append (by decide)]; rfl),
    tokens_append_sepStart (by rfl),
    tokens_append_sepEnd (by rw [sepEnd_append (by decide)]; rfl),
    tokens_append_sepStart (by rfl),
    tokens_append_sepEnd (by rw [sepEnd_append (by decide)]; rfl),
    tokens_append_sepStart (by rfl),
    tokens_append_sepEnd (by rw [sepEnd_append (by decide)]; rfl),
    tokens_append_sepStart (by rfl),
    tokens_append_sepEnd (by rw [sepEnd_append (by decide)]; rfl),
    tokens_append_sepStart (by rfl),
    tokens_append_sepEnd (by rw [sepEnd_append (by decide)]; rfl),
    tokens_append_sepStart (by rfl),
    tokens_append_sepEnd (by rw [sepEnd_append (by decide)]; rfl),
    tokens_append_sepStart (by rfl),
    tokens_append_sepEnd (by rw [sepEnd_append (by decide)]; rfl),
    tokens_append_sepStart (by rfl),
    tokens_append_sepEnd (by rfl),
    tokens_identOk hc, tokens_identOk htmp, tokens_identOk htc, tokens_identOk hec,
    show tokens "if (" = ["if"] from rfl,
    show tokens "->num) \x7b\n  " = ["num"] from rfl,
    show tokens "\n  " = [] from rfl,
    show tokens " = std::move(" = ["std", "move"] from rfl,
    show tokens ");\n\x7d\nelse \x7b\n  " = ["else"] from rfl,
    show tokens ");\n\x7d" = [] from rfl]
  simp

theorem tokens_letrecOp {v code : String} (hv : identOk v = true)
    (hcode : identOk code = true) :
    tokens (v ++ " = std::move(" ++ code ++ ");") = [v, "std", "move", code] := by
  rw [tokens_append_sepStart (by rfl),
    tokens_append_sepEnd (by rw [sepEnd_append (by decide)]; rfl),
    tokens_append_sepStart (by rfl),
    tokens_identOk hv, tokens_identOk hcode,
    show tokens " = std::move(" = ["std", "move"] from rfl,
    show tokens ");" = [] from rfl]
  simp

theorem tokens_numBinaryFmt {dst lhs rhs : String} (hdst : identOk dst = true)
    (hlhs : identOk lhs = true) (hrhs : identOk rhs = true) (o : String) :
    tokens (NumPrimOps.binary_fmt dst lhs o rhs) =
      [dst, "num", lhs, "num"] ++ tokens o ++ [rhs, "num"] := by
  rw [NumPrimOps.binary_fmt,
    tokens_append_sepStart (by rfl),
    tokens_append_sepEnd (by rw [sepEnd_append (by decide)]; rfl),
    tokens_append_sepStart (by rfl),
    tokens_append_sepEnd (by rw [sepEnd_append (by decide)]; rfl),
    tokens_append_sepStart (by rfl),
    tokens_append_sepEnd (by rw [sepEnd_append (by decide)]; rfl),
    tokens_append_sepStart (by rfl),
    tokens_identOk hdst, tokens_identOk hlhs, tokens_identOk hrhs,
    show tokens "->num = " = ["num"] from rfl,
    show tokens "->num " = ["num"] from rfl,
    show tokens " " = [] from rfl,
    show tokens "->num;" = ["num"] from rfl]
  simp

theorem tokens_numUnaryFmt {dst lhs : String} (hdst : identOk dst = true)
    (hlhs : identOk lhs = true) (o : String) :
    tokens (NumPrimOps.unary_fmt dst lhs o) = [dst, "num", lhs, "num"] ++ tokens o := by
  rw [NumPrimOps.unary_fmt,
    tokens_append_sepStart (by rfl),
    tokens_append_sepEnd (by rw [sepEnd_append (by decide)]; rfl),
    tokens_append_sepStart (by rfl),
    tokens_append_sepEnd (by rw [sepEnd_append (by decide)]; rfl),
    tokens_append_sepStart (by rfl),
    tokens_identOk hdst, tokens_identOk hlhs,
    show tokens "->num = " = ["num"] from rfl,
    show tokens "->num " = ["num"] from rfl,
    show tokens ";" = [] from rfl]
  simp

theorem tokens_strAppendFmt {dst lhs rhs : String} (hdst : identOk dst = true)
    (hlhs : identOk lhs = true) (hrhs : identOk rhs = true) :
    tokens (StrPrimOps.append_fmt dst lhs rhs) =
      [dst, "str", "std", "shared_ptr", "std", "string", lhs, "str", dst, "str",
       "append", rhs, "str"] := by
  rw [StrPrimOps.append_fmt,
    tokens_append_sepStart (by rfl),
    tokens_append_sepEnd (by rw [sepEnd_append (by decide)]; rfl),
    tokens_append_sepStart (by rfl),
    tokens_append_sepEnd (by rw [sepEnd_append (by decide)]; rfl),
    tokens_append_sepStart (by rfl),
    tokens_append_sepEnd (by rw [sepEnd_append (by decide)]; rfl),
    tokens_append_sepStart (by rfl),
    tokens_identOk hdst, tokens_identOk hlhs, tokens_identOk hrhs,
    show tokens "->str = std::shared_ptr<std::string>(" =
      ["str", "std", "shared_ptr", "std", "string"] from rfl,
    show tokens "->str);\n" = ["str"] from rfl,
    show tokens "->str.append(" = ["str", "append"] from rfl,
    show tokens "->str);" = ["str"] from rfl]
  simp

theorem tokens_strEqFmt {dst lhs rhs : String} (hdst : identOk dst = true)
    (hlhs : identOk lhs = true) (hrhs : identOk rhs = true) :
    tokens (StrPrimOps.eq_fmt dst lhs rhs) =
      [dst, "num", lhs, "str", "compare", rhs, "str", "0"] := by
  rw [StrPrimOps.eq_fmt,
    tokens_append_sepStart (by rfl),
    tokens_append_sepEnd (by rw [sepEnd_append (by decide)]; rfl),
    tokens_append_sepStart (by rfl),
    tokens_append_sepEnd (by rw [sepEnd_append (by decide)]; rfl),
    tokens_append_sepStart (by rfl),
    tokens_identOk hdst, tokens_identOk hlhs, tokens_identOk hrhs,
    show tokens "->num = " = ["num"] from rfl,
    show tokens "->str.compare(" = ["str", "compare"] from rfl,
    show tokens "->str) != 0;" = ["str", "0"] from rfl]
  simp

theorem argsAll_goodList (args : List Exp)
    (h : args.all varParamOk = true) :
    goodExpList args = true := by
  induction args with
  | nil => rfl
  | cons a args ih =>
    rw [List.all_cons, Bool.and_eq_true] at h
    rw [goodExpList, Bool.and_eq_true]
    refine ⟨?_, ih h.2⟩
    cases a <;> simp_all [goodExp, varParamOk]

mutual
theorem goodVarNames : ∀ (e : Exp), goodExp e = true →
    ∀ x ∈ varNamesE e, is_primop x = false → identOk x = true ∧ x ∈ astToks e
  | .VarExp n, hg, x, hx, _ => by
    rw [varNamesE] at hx
    obtain rfl : x = n := List.mem_singleton.mp hx
    exact ⟨hg, by rw [astToks]; exact List.mem_singleton.mpr rfl⟩
  | .NumExp _, _, x, hx, _ => by rw [varNamesE] at hx; exact absurd hx (List.not_mem_nil x)
  | .BoolExp _, _, x, hx, _ => by rw [varNamesE] at hx; exact absurd hx (List.not_mem_nil x)
  | .StrExp _, _, x, hx, _ => by rw [varNamesE] at hx; exact absurd hx (List.not_mem_nil x)
  | .VoidExp, hg, x, hx, _ => by rw [goodExp] at hg; exact absurd hg (by simp)
  | .LamExp nm args body, hg, x, hx, hp => by
    rw [goodExp, Bool.and_eq_true, Bool.and_eq_true] at hg
    rw [varNamesE] at hx
    rw [astToks]
    rcases List.mem_append.mp hx with h1 | h1
    · have := goodVarNamesList args (argsAll_goodList args hg.1.2) x h1 hp
      exact ⟨this.1, List.mem_cons_of_mem _ (List.mem_append_left _ this.2)⟩
    · have := goodVarNames body hg.2 x h1 hp
      exact ⟨this.1, List.mem_cons_of_mem _ (List.mem_append_right _ this.2)⟩
  | .AppExp f args, hg, x, hx, hp => by
    rw [goodExp, Bool.and_eq_true] at hg
    rw [varNamesE] at hx
    rw [astToks]
    rcases List.mem_append.mp hx with h1 | h1
    · have hcall := hg.1
      cases f with
      | VarExp n =>
        rw [varNamesE] at h1
        have hxn : x = n := List.mem_singleton.mp h1
        subst hxn
        rw [calleeOk] at hcall
        by_cases hpn : is_primop x
        · rw [hpn] at hp; exact absurd hp (by simp)
        · simp only [hpn, Bool.false_eq_true, reduceIte] at hcall
          exact ⟨hcall, List.mem_append_left _ (by rw [astToks]; exact List.mem_singleton.mpr rfl)⟩
      | NumExp v => rw [varNamesE] at h1; exact absurd h1 (List.not_mem_nil x)
      | BoolExp v => rw [varNamesE] at h1; exact absurd h1 (List.not_mem_nil x)
      | StrExp v => rw [varNamesE] at h1; exact absurd h1 (List.not_mem_nil x)
      | VoidExp => simp [calleeOk] at hcall
      | LamExp nm as b => simp [calleeOk] at hcall
      | AppExp f2 as => simp [calleeOk] at hcall
      | IfExp a b c => simp [calleeOk] at hcall
      | LetRecExp bs b => simp [calleeOk] at hcall
      | BeginExp es => simp [calleeOk] at hcall
      | SetExp v e2 => simp [calleeOk] at hcall
      | SetThenExp v e2 k => simp [calleeOk] at hcall
      | CppCodeExp c => simp [calleeOk] at hcall
    · have := goodVarNamesList args hg.2 x h1 hp
      exact ⟨this.1, List.mem_append_right _ this.2⟩
  | .IfExp c t e, hg, x, hx, hp => by
    rw [goodExp, Bool.and_eq_true, Bool.and_eq_true] at hg
    rw [varNamesE] at hx
    rw [astToks]
    rcases List.mem_append.mp hx with h1 | h1
    · rcases List.mem_append.mp h1 with h2 | h2
      · have := goodVarNames c hg.1.1 x h2 hp
        exact ⟨this.1, List.mem_append_left _ (List.mem_append_left _ this.2)⟩
      · have := goodVarNames t hg.1.2 x h2 hp
        exact ⟨this.1, List.mem_append_left _ (List.mem_append_right _ this.2)⟩
    · have := goodVarNames e hg.2 x h1 hp
      exact ⟨this.1, List.mem_append_right _ this.2⟩
  | .LetRecExp bs body, hg, x, hx, hp => by
    rw [goodExp, Bool.and_eq_true] at hg
    rw [varNamesE] at hx
    rw [astToks]
    rcases List.mem_append.mp hx with h1 | h1
    · have := goodVarNamesBinds bs hg.1 x h1 hp
      exact ⟨this.1, List.mem_append_left _ this.2⟩
    · have := goodVarNames body hg.2 x h1 hp
      exact ⟨this.1, List.mem_append_right _ this.2⟩
  | .BeginExp _, hg, x, hx, _ => by rw [goodExp] at hg; exact absurd hg (by simp)
  | .SetExp _ _, hg, x, hx, _ => by rw [goodExp] at hg; exact absurd hg (by simp)
  | .SetThenExp _ _ _, hg, x, hx, _ => by rw [goodExp] at hg; exact absurd hg (by simp)
  | .CppCodeExp _, hg, x, hx, _ => by rw [goodExp] at hg; exact absurd hg (by simp)

theorem goodVarNamesList : ∀ (es : List Exp), goodExpList es = true →
    ∀ x ∈ varNamesE.varNamesEList es, is_primop x = false →
      identOk x = true ∧ x ∈ astToksList es
  | [], _, x, hx, _ => by
    rw [varNamesE.varNamesEList] at hx
    exact absurd hx (List.not_mem_nil x)
  | e :: es, hg, x, hx, hp => by
    rw [goodExpList, Bool.and_eq_true] at hg
    rw [varNamesE.varNamesEList] at hx
    rw [astToksList]
    rcases List.mem_append.mp hx with h1 | h1
    · have := goodVarNames e hg.1 x h1 hp
      exact ⟨this.1, List.mem_append_left _ this.2⟩
    · have := goodVarNamesList es hg.2 x h1 hp
      exact ⟨this.1, List.mem_append_right _ this.2⟩

theorem goodVarNamesBinds : ∀ (bs : List (String × Exp)), goodBinds bs = true →
    ∀ x ∈ varNamesE.varNamesEBinds bs, is_primop x = false →
      identOk x = true ∧ x ∈ astToksBinds bs
  | [], _, x, hx, _ => by
    rw [varNamesE.varNamesEBinds] at hx
    exact absurd hx (List.not_mem_nil x)
  | (v, e) :: bs, hg, x, hx, hp => by
    rw [goodBinds, Bool.and_eq_true, Bool.and_eq_true] at hg
    rw [varNamesE.varNamesEBinds] at hx
    rw [astToksBinds]
    rcases List.mem_append.mp hx with h1 | h1
    · have := goodVarNames e hg.1.2 x h1 hp
      exact ⟨this.1, List.mem_cons_of_mem _ (List.mem_append_left _ this.2)⟩
    · have := goodVarNamesBinds bs hg.2 x h1 hp
      exact ⟨this.1, List.mem_cons_of_mem _ (List.mem_append_right _ this.2)⟩
end


theorem lookup_dictUpd_isSome {d : HDict} {k : String} (nm : String) (v : List String)
    (h : (d.lookup k).isSome = true) : ((dictUpd d nm v).lookup k).isSome = true := by
  by_cases hk : k = nm
  · subst hk; rw [lookup_dictUpd_self]; rfl
  · rw [lookup_dictUpd_other _ _ _ _ hk]; exact h

mutual
theorem findHoles_SInv (S : List String) : ∀ (e : Exp),
    (∀ x ∈ varNamesE e, is_primop x = false → identOk x = true ∧ x ∈ S) →
    ∀ s, holesSInv S s → holesSInv S (findHoles e s)
  | .VarExp n, hsub, (r, d), hinv => by
    rw [findHoles]
    refine ⟨?_, hinv.2⟩
    intro x hx
    by_cases hp : is_primop n
    · simp only [hp, reduceIte] at hx
      exact hinv.1 x hx
    · simp only [hp, Bool.false_eq_true, reduceIte] at hx
      rcases mem_setAdd hx with h1 | h1
      · exact hinv.1 x h1
      · subst h1
        exact hsub x (by rw [varNamesE]; exact List.mem_singleton.mpr rfl)
          (by simpa using hp)
  | .NumExp _, _, s, hinv => hinv
  | .BoolExp _, _, s, hinv => hinv
  | .StrExp _, _, s, hinv => hinv
  | .VoidExp, _, s, hinv => hinv
  | .LamExp nm args body, hsub, s, hinv => by
    rw [findHoles]
    have h1 := findHolesList_SInv S args (fun x hx hp => hsub x
      (by rw [varNamesE]; exact List.mem_append_left _ hx) hp) s hinv
    have h2 := findHoles_SInv S body (fun x hx hp => hsub x
      (by rw [varNamesE]; exact List.mem_append_right _ hx) hp) _ h1
    refine ⟨?_, ?_⟩
    · intro x hx
      exact h2.1 x (mem_setSub hx).1
    · intro nm' hs hlook
      by_cases hk : nm' = nm
      · subst hk
        rw [lookup_dictUpd_self] at hlook
        obtain rfl := Option.some.inj hlook
        intro x hx
        exact h2.1 x (mem_setSub hx).1
      · rw [lookup_dictUpd_other _ _ _ _ hk] at hlook
        exact h2.2 nm' hs hlook
  | .AppExp f args, hsub, s, hinv => by
    rw [findHoles]
    have h1 := findHoles_SInv S f (fun x hx hp => hsub x
      (by rw [varNamesE]; exact List.mem_append_left _ hx) hp) s hinv
    exact findHolesList_SInv S args (fun x hx hp => hsub x
      (by rw [varNamesE]; exact List.mem_append_right _ hx) hp) _ h1
  | .IfExp c t e, hsub, s, hinv => by
    rw [findHoles]
    have h1 := findHoles_SInv S c (fun x hx hp => hsub x
      (by rw [varNamesE]; exact List.mem_append_left _ (List.mem_append_left _ hx)) hp) s hinv
    have h2 := findHoles_SInv S t (fun x hx hp => hsub x
      (by rw [varNamesE]; exact List.mem_append_left _ (List.mem_append_right _ hx)) hp) _ h1
    exact findHoles_SInv S e (fun x hx hp => hsub x
      (by rw [varNamesE]; exact List.mem_append_right _ hx) hp) _ h2
  | .LetRecExp bs body, hsub, s, hinv => by
    rw [findHoles]
    have h1 := findHolesBinds_SInv S bs (fun x hx hp => hsub x
      (by rw [varNamesE]; exact List.mem_append_left _ hx) hp) s hinv
    exact findHoles_SInv S body (fun x hx hp => hsub x
      (by rw [varNamesE]; exact List.mem_append_right _ hx) hp) _ h1
  | .BeginExp es, hsub, s, hinv => by
    rw [findHoles]
    exact findHolesList_SInv S es (fun x hx hp => hsub x
      (by rw [varNamesE]; exact hx) hp) s hinv
  | .SetExp _ e, hsub, s, hinv => by
    rw [findHoles]
    exact findHoles_SInv S e (fun x hx hp => hsub x
      (by rw [varNamesE]; exact hx) hp) s hinv
  | .SetThenExp _ e k, hsub, s, hinv => by
    rw [findHoles]
    have h1 := findHoles_SInv S e (fun x hx hp => hsub x
      (by rw [varNamesE]; exact List.mem_append_left _ hx) hp) s hinv
    exact findHoles_SInv S k (fun x hx hp => hsub x
      (by rw [varNamesE]; exact List.mem_append_right _ hx) hp) _ h1
  | .CppCodeExp _, _, s, hinv => hinv

theorem findHolesList_SInv (S : List String) : ∀ (es : List Exp),
    (∀ x ∈ varNamesE.varNamesEList es, is_primop x = false → identOk x = true ∧ x ∈ S) →
    ∀ s, holesSInv S s → holesSInv S (findHolesList es s)
  | [], _, s, hinv => hinv
  | e :: es, hsub, s, hinv => by
    rw [findHolesList]
    have h1 := findHoles_SInv S e (fun x hx hp => hsub x
      (by rw [varNamesE.varNamesEList]; exact List.mem_append_left _ hx) hp) s hinv
    exact findHolesList_SInv S es (fun x hx hp => hsub x
      (by rw [varNamesE.varNamesEList]; exact List.mem_append_right _ hx) hp) _ h1

theorem findHolesBinds_SInv (S : List String) : ∀ (bs : List (String × Exp)),
    (∀ x ∈ varNamesE.varNamesEBinds bs, is_primop x = false → identOk x = true ∧ x ∈ S) →
    ∀ s, holesSInv S s → holesSInv S (findHolesBinds bs s)
  | [], _, s, hinv => hinv
  | (v, e) :: bs, hsub, s, hinv => by
    rw [findHolesBinds]
    have h1 := findHoles_SInv S e (fun x hx hp => hsub x
      (by rw [varNamesE.varNamesEBinds]; exact List.mem_append_left _ hx) hp) s hinv
    exact findHolesBinds_SInv S bs (fun x hx hp => hsub x
      (by rw [varNamesE.varNamesEBinds]; exact List.mem_append_right _ hx) hp) _ h1
end

mutual
theorem findHoles_monoKeys : ∀ (e : Exp) (s : List String × HDict) (k : String),
    ((s.2).lookup k).isSome = true → (((findHoles e s).2).lookup k).isSome = true
  | .VarExp n, (r, d), k, h => h
  | .NumExp _, s, k, h => h
  | .BoolExp _, s, k, h => h
  | .StrExp _, s, k, h => h
  | .VoidExp, s, k, h => h
  | .LamExp nm args body, s, k, h => by
    rw [findHoles]
    exact lookup_dictUpd_isSome nm _
      (findHoles_monoKeys body _ k (findHolesList_monoKeys args s k h))
  | .AppExp f args, s, k, h => by
    rw [findHoles]
    exact findHolesList_monoKeys args _ k (findHoles_monoKeys f s k h)
  | .IfExp c t e, s, k, h => by
    rw [findHoles]
    exact findHoles_monoKeys e _ k (findHoles_monoKeys t _ k (findHoles_monoKeys c s k h))
  | .LetRecExp bs body, s, k, h => by
    rw [findHoles]
    exact findHoles_monoKeys body _ k (findHolesBinds_monoKeys bs s k h)
  | .BeginExp es, s, k, h => by
    rw [findHoles]
    exact findHolesList_monoKeys es s k h
  | .SetExp _ e, s, k, h => by
    rw [findHoles]
    exact findHoles_monoKeys e s k h
  | .SetThenExp _ e kk, s, k, h => by
    rw [findHoles]
    exact findHoles_monoKeys kk _ k (findHoles_monoKeys e s k h)
  | .CppCodeExp _, s, k, h => h

theorem findHolesList_monoKeys : ∀ (es : List Exp) (s : List String × HDict) (k : String),
    ((s.2).lookup k).isSome = true → (((findHolesList es s).2).lookup k).isSome = true
  | [], s, k, h => h
  | e :: es, s, k, h => by
    rw [findHolesList]
    exact findHolesList_monoKeys es _ k (findHoles_monoKeys e s k h)

theorem findHolesBinds_monoKeys : ∀ (bs : List (String × Exp)) (s : List String × HDict)
    (k : String),
    ((s.2).lookup k).isSome = true → (((findHolesBinds bs s).2).lookup k).isSome = true
  | [], s, k, h => h
  | (v, e) :: bs, s, k, h => by
    rw [findHolesBinds]
    exact findHolesBinds_monoKeys bs _ k (findHoles_monoKeys e s k h)
end

mutual
theorem findHoles_cover : ∀ (e : Exp) (s : List String × HDict),
    ∀ pr ∈ lamNameParams e, (((findHoles e s).2).lookup pr.1).isSome = true
  | .VarExp _, s, pr, hpr => by rw [lamNameParams] at hpr; exact absurd hpr (List.not_mem_nil _)
  | .NumExp _, s, pr, hpr => by rw [lamNameParams] at hpr; exact absurd hpr (List.not_mem_nil _)
  | .BoolExp _, s, pr, hpr => by rw [lamNameParams] at hpr; exact absurd hpr (List.not_mem_nil _)
  | .StrExp _, s, pr, hpr => by rw [lamNameParams] at hpr; exact absurd hpr (List.not_mem_nil _)
  | .VoidExp, s, pr, hpr => by rw [lamNameParams] at hpr; exact absurd hpr (List.not_mem_nil _)
  | .LamExp nm args body, s, pr, hpr => by
    rw [lamNameParams] at hpr
    rw [findHoles]
    rcases List.mem_append.mp hpr with h1 | h1
    · rcases List.mem_append.mp h1 with h2 | h2
      · exact lookup_dictUpd_isSome nm _
          (findHoles_monoKeys body _ _ (findHolesList_cover args s pr h2))
      · exact lookup_dictUpd_isSome nm _ (findHoles_cover body _ pr h2)
    · obtain rfl := List.mem_singleton.mp h1
      rw [lookup_dictUpd_self]
      rfl
  | .AppExp f args, s, pr, hpr => by
    rw [lamNameParams] at hpr
    rw [findHoles]
    rcases List.mem_append.mp hpr with h1 | h1
    · exact findHolesList_monoKeys args _ _ (findHoles_cover f s pr h1)
    · exact findHolesList_cover args _ pr h1
  | .IfExp c t e, s, pr, hpr => by
    rw [lamNameParams] at hpr
    rw [findHoles]
    rcases List.mem_append.mp hpr with h1 | h1
    · rcases List.mem_append.mp h1 with h2 | h2
      · exact findHoles_monoKeys e _ _ (findHoles_monoKeys t _ _ (findHoles_cover c s pr h2))
      · exact findHoles_monoKeys e _ _ (findHoles_cover t _ pr h2)
    · exact findHoles_cover e _ pr h1
  | .LetRecExp bs body, s, pr, hpr => by
    rw [lamNameParams] at hpr
    rw [findHoles]
    rcases List.mem_append.mp hpr with h1 | h1
    · exact findHoles_monoKeys body _ _ (findHolesBinds_cover bs s pr h1)
    · exact findHoles_cover body _ pr h1
  | .BeginExp es, s, pr, hpr => by
    rw [lamNameParams] at hpr
    rw [findHoles]
    exact findHolesList_cover es s pr hpr
  | .SetExp _ e, s, pr, hpr => by
    rw [lamNameParams] at hpr
    rw [findHoles]
    exact findHoles_cover e s pr hpr
  | .SetThenExp _ e k, s, pr, hpr => by
    rw [lamNameParams] at hpr
    rw [findHoles]
    rcases List.mem_append.mp hpr with h1 | h1
    · exact findHoles_monoKeys k _ _ (findHoles_cover e s pr h1)
    · exact findHoles_cover k _ pr h1
  | .CppCodeExp _, s, pr, hpr => by
    rw [lamNameParams] at hpr; exact absurd hpr (List.not_mem_nil _)

theorem findHolesList_cover : ∀ (es : List Exp) (s : List String × HDict),
    ∀ pr ∈ lamNameParamsList es, (((findHolesList es s).2).lookup pr.1).isSome = true
  | [], s, pr, hpr => by rw [lamNameParamsList] at hpr; exact absurd hpr (List.not_mem_nil _)
  | e :: es, s, pr, hpr => by
    rw [lamNameParamsList] at hpr
    rw [findHolesList]
    rcases List.mem_append.mp hpr with h1 | h1
    · exact findHolesList_monoKeys es _ _ (findHoles_cover e s pr h1)
    · exact findHolesList_cover es _ pr h1

theorem findHolesBinds_cover : ∀ (bs : List (String × Exp)) (s : List String × HDict),
    ∀ pr ∈ lamNameParamsBinds bs, (((findHolesBinds bs s).2).lookup pr.1).isSome = true
  | [], s, pr, hpr => by rw [lamNameParamsBinds] at hpr; exact absurd hpr (List.not_mem_nil _)
  | (v, e) :: bs, s, pr, hpr => by
    rw [lamNameParamsBinds] at hpr
    rw [findHolesBinds]
    rcases List.mem_append.mp hpr with h1 | h1
    · exact findHolesBinds_monoKeys bs _ _ (findHoles_cover e s pr h1)
    · exact findHolesBinds_cover bs _ pr h1
end

theorem compute_holes_okFor (root : Exp) (hg : goodExp root = true) :
    holesOkFor (astToks root) (compute_holes root) root := by
  intro pr hpr
  have hcov := findHoles_cover root ([], []) pr hpr
  rw [show (findHoles root ([], [])).2 = compute_holes root from rfl] at hcov
  obtain ⟨hs, hhs⟩ := Option.isSome_iff_exists.mp hcov
  refine ⟨hs, hhs, ?_⟩
  have hinv := findHoles_SInv (astToks root) root
    (fun x hx hp => goodVarNames root hg x hx hp) ([], [])
    ⟨by intro x hx; exact absurd hx (List.not_mem_nil x),
     by intro nm hs' hl; simp [List.lookup] at hl⟩
  exact fun x hx => hinv.2 pr.1 hs hhs x hx

theorem listDeclNames_append (A B : List (String × String)) :
    listDeclNames (A ++ B) = listDeclNames A ++ listDeclNames B := by
  rw [listDeclNames, listDeclNames, listDeclNames, List.map_append, List.flatten_append]

theorem mem_listDeclNames_of_pair {p : String × String} {l : List (String × String)}
    (hp : p ∈ l) {x : String} (hx : x ∈ pairDeclNames p) : x ∈ listDeclNames l := by
  rw [listDeclNames, List.mem_flatten]
  exact ⟨pairDeclNames p, List.mem_map_of_mem _ hp, hx⟩

theorem declNames_in_flatten {α : Type} {p : α} {l : List α} (hp : p ∈ l)
    (g : α → List String) {x : String} (hx : x ∈ declNamesOf (g p)) :
    x ∈ declNamesOf ((l.map g).flatten) := by
  obtain ⟨s, t, rfl⟩ := List.append_of_mem hp
  rw [List.map_append, List.flatten_append, List.map_cons, List.flatten_cons]
  exact declNamesOf_append_right (declNamesOf_append_left hx _) _

theorem tokens_of_table_num_binary {op o : String}
    (h : NumPrimOps.binary_ops.lookup op = some o) : tokens o = [] := by
  have hmem := lookup_mem h
  have : ∀ p ∈ NumPrimOps.binary_ops, tokens p.2 = [] := by decide
  exact this _ hmem

theorem tokens_of_table_num_unary {op o : String}
    (h : NumPrimOps.unary_ops.lookup op = some o) : tokens o = ["0"] := by
  have hmem := lookup_mem h
  have : ∀ p ∈ NumPrimOps.unary_ops, tokens p.2 = ["0"] := by decide
  exact this _ hmem

theorem gen_primop_good {op dst : String} {operands : List String}
    (hak : primArityOk op (operands.length + 1) = true)
    (hdst : identOk dst = true)
    (hops : ∀ x ∈ operands, identOk x = true) :
    ∃ typ body, gen_primop op dst operands = .ok (typ, body) ∧
      tokens typ = [typ] ∧ typ ∈ fixedToks ∧
      ∀ t ∈ tokens body, t ∈ fixedToks ∨ t = dst ∨ t ∈ operands := by
  rw [primArityOk] at hak
  by_cases hnum : NumPrimOps.contains op
  · rw [if_pos hnum, Bool.or_eq_true, Bool.and_eq_true, Bool.and_eq_true] at hak
    rcases hak with ⟨hu, hk⟩ | ⟨hb, hk⟩
    · have hlen : operands.length = 1 := by
        have := (beq_iff_eq (a := operands.length + 1) (b := 2)).mp hk
        omega
      obtain ⟨lhs, rfl⟩ := List.length_eq_one.mp hlen
      obtain ⟨o, ho⟩ := Option.isSome_iff_exists.mp hu
      have hlhs : identOk lhs = true := hops lhs (List.mem_singleton.mpr rfl)
      refine ⟨NUM, NumPrimOps.unary_fmt dst lhs o, ?_, by rfl, by decide, ?_⟩
      · rw [gen_primop, if_pos hnum]
        simp only [NumPrimOps.call, ho]
      · rw [tokens_numUnaryFmt hdst hlhs, tokens_of_table_num_unary ho]
        intro t ht
        simp only [List.append_assoc, List.cons_append, List.nil_append, List.mem_cons,
          List.not_mem_nil, or_false] at ht
        rcases ht with rfl | rfl | rfl | rfl | rfl
        · exact Or.inr (Or.inl rfl)
        · exact Or.inl (by decide)
        · exact Or.inr (Or.inr (by simp))
        · exact Or.inl (by decide)
        · exact Or.inl (by decide)
    · have hlen : operands.length = 2 := by
        have := (beq_iff_eq (a := operands.length + 1) (b := 3)).mp hk
        omega
      obtain ⟨a, b, rfl⟩ := List.length_eq_two.mp hlen
      obtain ⟨o, ho⟩ := Option.isSome_iff_exists.mp hb
      have ha : identOk a = true := hops a (by simp)
      have hbk : identOk b = true := hops b (by simp)
      refine ⟨NUM, NumPrimOps.binary_fmt dst a o b, ?_, by rfl, by decide, ?_⟩
      · rw [gen_primop, if_pos hnum]
        simp only [NumPrimOps.call, ho]
      · rw [tokens_numBinaryFmt hdst ha hbk, tokens_of_table_num_binary ho]
        intro t ht
        simp only [List.append_assoc, List.cons_append, List.nil_append, List.mem_cons,
          List.not_mem_nil, or_false] at ht
        rcases ht with rfl | rfl | rfl | rfl | rfl | rfl
        · exact Or.inr (Or.inl rfl)
        · exact Or.inl (by decide)
        · exact Or.inr (Or.inr (by simp))
        · exact Or.inl (by decide)
        · exact Or.inr (Or.inr (by simp))
        · exact Or.inl (by decide)
  · rw [if_neg hnum, Bool.and_eq_true] at hak
    obtain ⟨hstr, hk⟩ := hak
    have hlen : operands.length = 2 := by
      have := (beq_iff_eq (a := operands.length + 1) (b := 3)).mp hk
      omega
    obtain ⟨a, b, rfl⟩ := List.length_eq_two.mp hlen
    have ha : identOk a = true := hops a (by simp)
    have hbk : identOk b = true := hops b (by simp)
    have hcases : op = "string-append" ∨ op = "string=?" := by
      have := mem_of_contains_eq_true (l := StrPrimOps.binary_keys) hstr
      simpa [StrPrimOps.binary_keys] using this
    rcases hcases with rfl | rfl
    · refine ⟨STR, StrPrimOps.append_fmt dst a b, ?_, by rfl, by decide, ?_⟩
      · rw [gen_primop, if_neg (by simp [hnum]), if_pos hstr]
        rfl
      · rw [tokens_strAppendFmt hdst ha hbk]
        intro t ht
        simp only [List.mem_cons, List.not_mem_nil, or_false] at ht
        rcases ht with rfl | rfl | rfl | rfl | rfl | rfl | rfl | rfl | rfl | rfl | rfl | rfl | rfl
        · exact Or.inr (Or.inl rfl)
        · exact Or.inl (by decide)
        · exact Or.inl (by decide)
        · exact Or.inl (by decide)
        · exact Or.inl (by decide)
        · exact Or.inl (by decide)
        · exact Or.inr (Or.inr (by simp))
        · exact Or.inl (by decide)
        · exact Or.inr (Or.inl rfl)
        · exact Or.inl (by decide)
        · exact Or.inl (by decide)
        · exact Or.inr (Or.inr (by simp))
        · exact Or.inl (by decide)
    · refine ⟨STR, StrPrimOps.eq_fmt dst a b, ?_, by rfl, by decide, ?_⟩
      · rw [gen_primop, if_neg (by simp [hnum]), if_pos hstr]
        rfl
      · rw [tokens_strEqFmt hdst ha hbk]
        intro t ht
        simp only [List.mem_cons, List.not_mem_nil, or_false] at ht
        rcases ht with rfl | rfl | rfl | rfl | rfl | rfl | rfl | rfl
        · exact Or.inr (Or.inl rfl)
        · exact Or.inl (by decide)
        · exact Or.inr (Or.inr (by simp))
        · exact Or.inl (by decide)
        · exact Or.inl (by decide)
        · exact Or.inr (Or.inr (by simp))
        · exact Or.inl (by decide)
        · exact Or.inl (by decide)

theorem primArityOk_k {n : String} {k : Nat} (h : primArityOk n k = true) :
    k = 2 ∨ k = 3 := by
  rw [primArityOk] at h
  by_cases hnum : NumPrimOps.contains n
  · rw [if_pos hnum, Bool.or_eq_true, Bool.and_eq_true, Bool.and_eq_true] at h
    rcases h with ⟨_, hk⟩ | ⟨_, hk⟩
    · exact Or.inl ((beq_iff_eq (a := k) (b := 2)).mp hk)
    · exact Or.inr ((beq_iff_eq (a := k) (b := 3)).mp hk)
  · rw [if_neg hnum, Bool.and_eq_true] at h
    exact Or.inr ((beq_iff_eq (a := k) (b := 3)).mp h.2)

theorem mem_declNames_joinNonEmpty {x : String} {ds : List (String × String)}
    (hx : x ∈ listDeclNames ds) :
    x ∈ declNamesOf (tokens (joinNonEmpty "\n" (ds.map Prod.fst))) ∨
    x ∈ declNamesOf (tokens (joinNonEmpty "\n" (ds.map Prod.snd))) := by
  rw [tokens_joinNonEmpty, tokens_joinNonEmpty]
  rw [listDeclNames, List.mem_flatten] at hx
  obtain ⟨l, hl, hxl⟩ := hx
  obtain ⟨q, hq, rfl⟩ := List.mem_map.mp hl
  rw [pairDeclNames] at hxl
  rcases List.mem_append.mp hxl with h1 | h1
  · left
    have := declNames_in_flatten hq (fun r => tokens r.1) h1
    rwa [show (List.map Prod.fst ds).map tokens = ds.map (fun r => tokens r.1) from by
      rw [List.map_map]; rfl]
  · right
    have := declNames_in_flatten hq (fun r => tokens r.2) h1
    rwa [show (List.map Prod.snd ds).map tokens = ds.map (fun r => tokens r.2) from by
      rw [List.map_map]; rfl]

theorem mem_tokens_joinNonEmpty_fst {t : String} {ds : List (String × String)}
    (ht : t ∈ tokens (joinNonEmpty "\n" (ds.map Prod.fst))) :
    ∃ q ∈ ds, t ∈ pairTokens q := by
  rw [tokens_joinNonEmpty, List.mem_flatten] at ht
  obtain ⟨l, hl, htl⟩ := ht
  rw [List.map_map] at hl
  obtain ⟨q, hq, rfl⟩ := List.mem_map.mp hl
  exact ⟨q, hq, by rw [pairTokens]; exact List.mem_append_left _ htl⟩

theorem mem_tokens_joinNonEmpty_snd {t : String} {ds : List (String × String)}
    (ht : t ∈ tokens (joinNonEmpty "\n" (ds.map Prod.snd))) :
    ∃ q ∈ ds, t ∈ pairTokens q := by
  rw [tokens_joinNonEmpty, List.mem_flatten] at ht
  obtain ⟨l, hl, htl⟩ := ht
  rw [List.map_map] at hl
  obtain ⟨q, hq, rfl⟩ := List.mem_map.mp hl
  exact ⟨q, hq, by rw [pairTokens]; exact List.mem_append_right _ htl⟩

theorem mem_of_getLastQ {α : Type} : ∀ {l : List α} {a : α}, l.getLast? = some a → a ∈ l
  | [], _, h => by simp at h
  | [x], a, h => by
    simp at h
    subst h
    exact List.mem_singleton.mpr rfl
  | x :: y :: l, a, h => by
    rw [List.getLast?_cons_cons] at h
    exact List.mem_cons_of_mem _ (mem_of_getLastQ h)

theorem mem_of_dropLastQ {α : Type} : ∀ {l : List α} {a : α}, a ∈ l.dropLast → a ∈ l
  | [], _, h => by simp at h
  | [x], _, h => by simp [List.dropLast] at h
  | x :: y :: l, a, h => by
    rw [show (x :: y :: l).dropLast = x :: (y :: l).dropLast from rfl] at h
    rcases List.mem_cons.mp h with rfl | h
    · exact List.mem_cons_self _ _
    · exact List.mem_cons_of_mem _ (mem_of_dropLastQ h)

theorem listDeclNames_flatten_of_mem {α : Type} {a : α} {l : List α} (ha : a ∈ l)
    (g : α → List (String × String)) {x : String} (hx : x ∈ listDeclNames (g a)) :
    x ∈ listDeclNames ((l.map g).flatten) := by
  obtain ⟨s, t, rfl⟩ := List.append_of_mem ha
  rw [List.map_append, List.flatten_append, List.map_cons, List.flatten_cons,
    listDeclNames_append, listDeclNames_append]
  exact List.mem_append_right _ (List.mem_append_left _ hx)

mutual
theorem toCpp_good (S : List String) (H HL : HDict) : ∀ (e : Exp),
    goodExp e = true →
    (∀ t ∈ astToks e, t ∈ S) →
    (∀ pr ∈ lamNameParams e, ∃ hs, H.lookup pr.1 = some hs ∧
      ∀ x ∈ hs, identOk x = true ∧ x ∈ S) →
    (∀ pr ∈ lamNameParams e, ∃ hs, HL.lookup pr.1 = some hs ∧
      ∀ x ∈ hs, identOk x = true ∧ x ∈ S) →
    ∀ st, ∃ frag st', toCpp H HL e st = .ok (frag, st') ∧ fragOk S frag
  | .VarExp n, hg, hast, _, _, st => by
    refine ⟨⟨.varK, n, []⟩, st, rfl, hg, Or.inr (hast n (by rw [astToks]; simp)), ?_⟩
    intro p hp
    exact absurd hp (List.not_mem_nil p)
  | .NumExp v, hg, hast, _, _, st => by
    have htmp : identOk ("__num_" ++ toString st.ctr) = true :=
      gensym_identOk "__num_" (by decide) st.ctr
    have hdecl : ("__num_" ++ toString st.ctr) ∈ listDeclNames
        [(declare ("__num_" ++ toString st.ctr),
          ("__num_" ++ toString st.ctr) ++ "->type = " ++ NUM ++ ";
" ++
          ("__num_" ++ toString st.ctr) ++ "->num = " ++ toString v ++ ";")] := by
      refine mem_listDeclNames_of_pair (List.mem_singleton.mpr rfl) ?_
      rw [pairDeclNames]
      refine List.mem_append_left _ ?_
      rw [tokens_declare htmp]
      exact declNamesOf_adjacent (Or.inl rfl) _
    refine ⟨⟨.numK, "__num_" ++ toString st.ctr,
      [(declare ("__num_" ++ toString st.ctr),
        ("__num_" ++ toString st.ctr) ++ "->type = " ++ NUM ++ ";
" ++
        ("__num_" ++ toString st.ctr) ++ "->num = " ++ toString v ++ ";")]⟩,
      { st with ctr := st.ctr + 1 }, rfl, htmp, Or.inl hdecl, ?_⟩
    intro p hp t ht
    obtain rfl := List.mem_singleton.mp hp
    rw [pairTokens] at ht
    simp only at ht
    rw [tokens_declare htmp, tokens_numop htmp] at ht
    simp only [List.cons_append, List.nil_append, List.mem_append, List.mem_cons,
      List.not_mem_nil, or_false] at ht
    rcases ht with rfl | rfl | rfl | rfl | rfl | rfl | rfl | rfl | rfl | hv
    · exact Or.inl (by decide)
    · exact Or.inr (Or.inr hdecl)
    · exact Or.inl (by decide)
    · exact Or.inl (by decide)
    · exact Or.inr (Or.inr hdecl)
    · exact Or.inl (by decide)
    · exact Or.inl (by decide)
    · exact Or.inr (Or.inr hdecl)
    · exact Or.inl (by decide)
    · exact Or.inr (Or.inl (hast t (by rw [astToks]; exact hv)))
  | .BoolExp b, hg, hast, _, _, st => by
    have htmp : identOk ("__bool_" ++ toString st.ctr) = true :=
      gensym_identOk "__bool_" (by decide) st.ctr
    have hdecl : ("__bool_" ++ toString st.ctr) ∈ listDeclNames
        [(declare ("__bool_" ++ toString st.ctr),
          ("__bool_" ++ toString st.ctr) ++ "->type = " ++ NUM ++ ";
" ++
          ("__bool_" ++ toString st.ctr) ++ "->num = " ++ (if b then "1" else "0") ++ ";")] := by
      refine mem_listDeclNames_of_pair (List.mem_singleton.mpr rfl) ?_
      rw [pairDeclNames]
      refine List.mem_append_left _ ?_
      rw [tokens_declare htmp]
      exact declNamesOf_adjacent (Or.inl rfl) _
    refine ⟨⟨.boolK, "__bool_" ++ toString st.ctr,
      [(declare ("__bool_" ++ toString st.ctr),
        ("__bool_" ++ toString st.ctr) ++ "->type = " ++ NUM ++ ";
" ++
        ("__bool_" ++ toString st.ctr) ++ "->num = " ++ (if b then "1" else "0") ++ ";")]⟩,
      { st with ctr := st.ctr + 1 }, rfl, htmp, Or.inl hdecl, ?_⟩
    intro p hp t ht
    obtain rfl := List.mem_singleton.mp hp
    rw [pairTokens] at ht
    simp only at ht
    rw [tokens_declare htmp, tokens_numop htmp] at ht
    simp only [List.cons_append, List.nil_append, List.mem_append, List.mem_cons,
      List.not_mem_nil, or_false] at ht
    rcases ht with rfl | rfl | rfl | rfl | rfl | rfl | rfl | rfl | rfl | hv
    · exact Or.inl (by decide)
    · exact Or.inr (Or.inr hdecl)
    · exact Or.inl (by decide)
    · exact Or.inl (by decide)
    · exact Or.inr (Or.inr hdecl)
    · exact Or.inl (by decide)
    · exact Or.inl (by decide)
    · exact Or.inr (Or.inr hdecl)
    · exact Or.inl (by decide)
    · refine Or.inl ?_
      by_cases hb : b
      · rw [if_pos hb, show tokens "1" = ["1"] from rfl] at hv
        obtain rfl := List.mem_singleton.mp hv
        decide
      · rw [if_neg hb, show tokens "0" = ["0"] from rfl] at hv
        obtain rfl := List.mem_singleton.mp hv
        decide
  | .StrExp s0, hg, hast, _, _, st => by
    have htmp : identOk ("__str_" ++ toString st.ctr) = true :=
      gensym_identOk "__str_" (by decide) st.ctr
    have hdecl : ("__str_" ++ toString st.ctr) ∈ listDeclNames
        [(declare ("__str_" ++ toString st.ctr),
          ("__str_" ++ toString st.ctr) ++ "->type = " ++ STR ++ ";
" ++
          ("__str_" ++ toString st.ctr) ++ "->str = " ++ ("\"" ++ s0 ++ "\"") ++ ";")] := by
      refine mem_listDeclNames_of_pair (List.mem_singleton.mpr rfl) ?_
      rw [pairDeclNames]
      refine List.mem_append_left _ ?_
      rw [tokens_declare htmp]
      exact declNamesOf_adjacent (Or.inl rfl) _
    refine ⟨⟨.strK, "__str_" ++ toString st.ctr,
      [(declare ("__str_" ++ toString st.ctr),
        ("__str_" ++ toString st.ctr) ++ "->type = " ++ STR ++ ";
" ++
        ("__str_" ++ toString st.ctr) ++ "->str = " ++ ("\"" ++ s0 ++ "\"") ++ ";")]⟩,
      { st with ctr := st.ctr + 1 }, rfl, htmp, Or.inl hdecl, ?_⟩
    intro p hp t ht
    obtain rfl := List.mem_singleton.mp hp
    rw [pairTokens] at ht
    simp only at ht
    rw [tokens_declare htmp, tokens_strop htmp, tokens_quoted] at ht
    simp only [List.cons_append, List.nil_append, List.mem_append, List.mem_cons,
      List.not_mem_nil, or_false] at ht
    rcases ht with rfl | rfl | rfl | rfl | rfl | rfl | rfl | rfl | rfl | hv
    · exact Or.inl (by decide)
    · exact Or.inr (Or.inr hdecl)
    · exact Or.inl (by decide)
    · exact Or.inl (by decide)
    · exact Or.inr (Or.inr hdecl)
    · exact Or.inl (by decide)
    · exact Or.inl (by decide)
    · exact Or.inr (Or.inr hdecl)
    · exact Or.inl (by decide)
    · exact Or.inr (Or.inl (hast t (by rw [astToks]; exact hv)))
  | .VoidExp, hg, _, _, _, st => by rw [goodExp] at hg; exact absurd hg (by simp)
  | .LamExp nm args body, hg, hast, hH, hHL, st => by
    rw [goodExp, Bool.and_eq_true, Bool.and_eq_true] at hg
    obtain ⟨⟨hnm, hargsOk⟩, hbodyG⟩ := hg
    have hself : (nm, varNamesOf args) ∈ lamNameParams (.LamExp nm args body) := by
      rw [lamNameParams]
      exact List.mem_append_right _ (List.mem_singleton.mpr rfl)
    obtain ⟨hs, hHnm, hhs⟩ := hH _ hself
    obtain ⟨hs2, hHLnm, _⟩ := hHL _ hself
    obtain ⟨margs, st1, hargsEq, _, _⟩ := toCppList_good S H HL args
      (argsAll_goodList args hargsOk)
      (fun t ht => hast t (by
        rw [astToks]; exact List.mem_cons_of_mem _ (List.mem_append_left _ ht)))
      (fun pr hpr => hH pr (by
        rw [lamNameParams]
        exact List.mem_append_left _ (List.mem_append_left _ hpr)))
      (fun pr hpr => hHL pr (by
        rw [lamNameParams]
        exact List.mem_append_left _ (List.mem_append_left _ hpr))) st
    obtain ⟨mbody, st2, hbodyEq, _⟩ := toCpp_good S H HL body hbodyG
      (fun t ht => hast t (by
        rw [astToks]; exact List.mem_cons_of_mem _ (List.mem_append_right _ ht)))
      (fun pr hpr => hH pr (by
        rw [lamNameParams]
        exact List.mem_append_left _ (List.mem_append_right _ hpr)))
      (fun pr hpr => hHL pr (by
        rw [lamNameParams]
        exact List.mem_append_left _ (List.mem_append_right _ hpr))) st1
    have hgetE : ∃ st3, lamGetitem HL nm margs mbody st2 = .ok (nm, st3) := by
      rw [lamGetitem]
      by_cases hmemo : (st2.lamDecls.lookup nm).isSome
      · rw [if_pos hmemo]
        exact ⟨st2, rfl⟩
      · rw [if_neg hmemo, hHLnm]
        exact ⟨_, rfl⟩
    obtain ⟨st3, hget⟩ := hgetE
    have htmp : identOk ("__lam_" ++ toString st3.ctr) = true :=
      gensym_identOk "__lam_" (by decide) st3.ctr
    have hsAll : ∀ x ∈ hs, identOk x = true := fun x hx => (hhs x hx).1
    have hdecl : ("__lam_" ++ toString st3.ctr) ∈ listDeclNames
        [(declare ("__lam_" ++ toString st3.ctr),
          lamInstantiation ("__lam_" ++ toString st3.ctr) nm hs)] := by
      refine mem_listDeclNames_of_pair (List.mem_singleton.mpr rfl) ?_
      rw [pairDeclNames]
      refine List.mem_append_left _ ?_
      rw [tokens_declare htmp]
      exact declNamesOf_adjacent (Or.inl rfl) _
    refine ⟨⟨.lamK, "__lam_" ++ toString st3.ctr,
      [(declare ("__lam_" ++ toString st3.ctr),
        lamInstantiation ("__lam_" ++ toString st3.ctr) nm hs)]⟩,
      { st3 with ctr := st3.ctr + 1 }, ?_, htmp, Or.inl hdecl, ?_⟩
    · rw [toCpp]
      simp only [hargsEq, hbodyEq, hget, hHnm, bind, Except.bind, gensym]
    · intro p hp t ht
      obtain rfl := List.mem_singleton.mp hp
      rw [pairTokens] at ht
      simp only at ht
      rw [tokens_declare htmp, tokens_lamInst htmp hnm hsAll] at ht
      simp only [List.cons_append, List.nil_append, List.mem_append, List.mem_cons] at ht
      rcases ht with rfl | rfl | rfl | rfl | rfl | rfl | rfl | rfl | rfl | hx
      · exact Or.inl (by decide)
      · exact Or.inr (Or.inr hdecl)
      · exact Or.inl (by decide)
      · exact Or.inl (by decide)
      · exact Or.inr (Or.inr hdecl)
      · exact Or.inl (by decide)
      · exact Or.inl (by decide)
      · exact Or.inl (by decide)
      · refine Or.inr (Or.inl (hast _ ?_))
        rw [astToks]
        exact List.mem_cons_self _ _
      · exact Or.inr (Or.inl ((hhs t hx).2))
  | .AppExp f args, hg, hast, hH, hHL, st => by
    rw [goodExp, Bool.and_eq_true] at hg
    obtain ⟨hcall, hargsG⟩ := hg
    cases f with
    | NumExp v => simp [calleeOk] at hcall
    | BoolExp b => simp [calleeOk] at hcall
    | StrExp s0 => simp [calleeOk] at hcall
    | VoidExp => simp [calleeOk] at hcall
    | LamExp nm las lb => simp [calleeOk] at hcall
    | AppExp af aas => simp [calleeOk] at hcall
    | IfExp ic it ie => simp [calleeOk] at hcall
    | LetRecExp lbs lb => simp [calleeOk] at hcall
    | BeginExp es => simp [calleeOk] at hcall
    | SetExp sv se => simp [calleeOk] at hcall
    | SetThenExp sv se sk => simp [calleeOk] at hcall
    | CppCodeExp cc => simp [calleeOk] at hcall
    | VarExp n =>
    rw [calleeOk] at hcall
    obtain ⟨margs, st2, hargsEq, hlen, hfs⟩ := toCppList_good S H HL args hargsG
      (fun x hx => hast x (by rw [astToks]; exact List.mem_append_right _ hx))
      (fun pr hpr => hH pr (by rw [lamNameParams]; exact List.mem_append_right _ hpr))
      (fun pr hpr => hHL pr (by rw [lamNameParams]; exact List.mem_append_right _ hpr)) st
    have hcodesOk : ∀ x ∈ margs.map CppCode.code, identOk x = true := by
      intro x hx
      obtain ⟨mi, hmi, rfl⟩ := List.mem_map.mp hx
      have h1 := hfs mi hmi
      rw [fragOk] at h1
      exact h1.1
    have hcodeLoc : ∀ x ∈ margs.map CppCode.code,
        (∃ mi ∈ margs, x ∈ listDeclNames mi.decls) ∨ x ∈ S := by
      intro x hx
      obtain ⟨mi, hmi, rfl⟩ := List.mem_map.mp hx
      have h1 := hfs mi hmi
      rw [fragOk] at h1
      exact h1.2.1.imp (fun h2 => ⟨mi, hmi, h2⟩) id
    have htmp : identOk ("__ret_" ++ toString st2.ctr) = true :=
      gensym_identOk "__ret_" (by decide) st2.ctr
    by_cases hprim : is_primop n = true
    · rw [if_pos hprim] at hcall
      have hprimId : identOk ("__prim_" ++ toString (st2.ctr + 1)) = true :=
        gensym_identOk "__prim_" (by decide) (st2.ctr + 1)
      have hk := primArityOk_k hcall
      have hnonnil : margs.map CppCode.code ≠ [] := by
        intro h0
        have h1 : margs.length = 0 := by
          have := congrArg List.length h0
          rwa [List.length_map] at this
        rw [hlen] at h1
        rcases hk with h2 | h2 <;> omega
      have hkontEx : ((margs.map CppCode.code).getLast?).isSome := by
        rw [List.getLast?_isSome]
        exact hnonnil
      obtain ⟨kont, hkont⟩ := Option.isSome_iff_exists.mp hkontEx
      have hkontMem : kont ∈ margs.map CppCode.code := mem_of_getLastQ hkont
      have hkontId : identOk kont = true := hcodesOk kont hkontMem
      have hak : primArityOk n ((margs.map CppCode.code).dropLast.length + 1) = true := by
        rw [List.length_dropLast, List.length_map, hlen]
        have : args.length - 1 + 1 = args.length := by rcases hk with h2 | h2 <;> omega
        rw [this]
        exact hcall
      obtain ⟨typ, body, hgpEq, htypTok, htypFixed, hbodyToks⟩ :=
        gen_primop_good hak hprimId
          (fun x hx => hcodesOk x (mem_of_dropLastQ hx))
      have hpairP : (declare ("__prim_" ++ toString (st2.ctr + 1)) ++ "\nTHUNK_T " ++ ("__ret_" ++ toString st2.ctr) ++ "(nullptr);",
          ("__prim_" ++ toString (st2.ctr + 1)) ++ "->type = " ++ typ ++ ";\n" ++ body ++ "\n" ++
          ("__ret_" ++ toString st2.ctr) ++ " = std::move((*" ++ kont ++ "->lam)(" ++ ("__prim_" ++ toString (st2.ctr + 1)) ++ "));") ∈ ((margs.map CppCode.decls).flatten ++ []) ++
          [(declare ("__prim_" ++ toString (st2.ctr + 1)) ++ "\nTHUNK_T " ++ ("__ret_" ++ toString st2.ctr) ++ "(nullptr);",
          ("__prim_" ++ toString (st2.ctr + 1)) ++ "->type = " ++ typ ++ ";\n" ++ body ++ "\n" ++
          ("__ret_" ++ toString st2.ctr) ++ " = std::move((*" ++ kont ++ "->lam)(" ++ ("__prim_" ++ toString (st2.ctr + 1)) ++ "));")] :=
        List.mem_append_right _ (List.mem_singleton.mpr rfl)
      have hdeclPrim : ("__prim_" ++ toString (st2.ctr + 1)) ∈ listDeclNames
          (((margs.map CppCode.decls).flatten ++ []) ++
          [(declare ("__prim_" ++ toString (st2.ctr + 1)) ++ "\nTHUNK_T " ++ ("__ret_" ++ toString st2.ctr) ++ "(nullptr);",
          ("__prim_" ++ toString (st2.ctr + 1)) ++ "->type = " ++ typ ++ ";\n" ++ body ++ "\n" ++
          ("__ret_" ++ toString st2.ctr) ++ " = std::move((*" ++ kont ++ "->lam)(" ++ ("__prim_" ++ toString (st2.ctr + 1)) ++ "));")]) := by
        refine mem_listDeclNames_of_pair hpairP ?_
        rw [pairDeclNames]
        refine List.mem_append_left _ ?_
        simp only
        rw [tokens_appPrimDecl hprimId htmp]
        exact declNamesOf_adjacent (Or.inl rfl) _
      have hdeclTmp : ("__ret_" ++ toString st2.ctr) ∈ listDeclNames
          (((margs.map CppCode.decls).flatten ++ []) ++
          [(declare ("__prim_" ++ toString (st2.ctr + 1)) ++ "\nTHUNK_T " ++ ("__ret_" ++ toString st2.ctr) ++ "(nullptr);",
          ("__prim_" ++ toString (st2.ctr + 1)) ++ "->type = " ++ typ ++ ";\n" ++ body ++ "\n" ++
          ("__ret_" ++ toString st2.ctr) ++ " = std::move((*" ++ kont ++ "->lam)(" ++ ("__prim_" ++ toString (st2.ctr + 1)) ++ "));")]) := by
        refine mem_listDeclNames_of_pair hpairP ?_
        rw [pairDeclNames]
        refine List.mem_append_left _ ?_
        simp only
        rw [tokens_appPrimDecl hprimId htmp]
        exact declNamesOf_append_right
          (declNamesOf_adjacent (Or.inr (Or.inl rfl)) _)
          ["SCHEMETYPE_T", "__prim_" ++ toString (st2.ctr + 1), "new", "schemetype_t"]
      have hlift : ∀ mi ∈ margs, ∀ x ∈ listDeclNames mi.decls, x ∈ listDeclNames
          (((margs.map CppCode.decls).flatten ++ []) ++
          [(declare ("__prim_" ++ toString (st2.ctr + 1)) ++ "\nTHUNK_T " ++ ("__ret_" ++ toString st2.ctr) ++ "(nullptr);",
          ("__prim_" ++ toString (st2.ctr + 1)) ++ "->type = " ++ typ ++ ";\n" ++ body ++ "\n" ++
          ("__ret_" ++ toString st2.ctr) ++ " = std::move((*" ++ kont ++ "->lam)(" ++ ("__prim_" ++ toString (st2.ctr + 1)) ++ "));")]) := by
        intro mi hmi x hx
        rw [listDeclNames_append, listDeclNames_append]
        exact List.mem_append_left _ (List.mem_append_left _
          (listDeclNames_flatten_of_mem hmi CppCode.decls hx))
      refine ⟨⟨.appK, "__ret_" ++ toString st2.ctr,
        ((margs.map CppCode.decls).flatten ++ []) ++
          [(declare ("__prim_" ++ toString (st2.ctr + 1)) ++ "\nTHUNK_T " ++ ("__ret_" ++ toString st2.ctr) ++ "(nullptr);",
          ("__prim_" ++ toString (st2.ctr + 1)) ++ "->type = " ++ typ ++ ";\n" ++ body ++ "\n" ++
          ("__ret_" ++ toString st2.ctr) ++ " = std::move((*" ++ kont ++ "->lam)(" ++ ("__prim_" ++ toString (st2.ctr + 1)) ++ "));")]⟩,
        { st2 with ctr := st2.ctr + 1 + 1 }, ?_, htmp, Or.inl hdeclTmp, ?_⟩
      · rw [toCpp]
        simp only [toCpp, hargsEq, bind, Except.bind, gensym]
        rw [if_pos hprim, hgpEq, hkont]
      · intro p hp x hx
        rcases List.mem_append.mp hp with hp1 | hp1
        · rcases List.mem_append.mp hp1 with hp2 | hp2
          · rw [List.mem_flatten] at hp2
            obtain ⟨l, hl, hpl⟩ := hp2
            obtain ⟨mi, hmi, rfl⟩ := List.mem_map.mp hl
            have h1 := hfs mi hmi
            rw [fragOk] at h1
            rcases h1.2.2 p hpl x hx with h2 | h2 | h2
            · exact Or.inl h2
            · exact Or.inr (Or.inl h2)
            · exact Or.inr (Or.inr (hlift mi hmi _ h2))
          · exact absurd hp2 (List.not_mem_nil p)
        · obtain rfl := List.mem_singleton.mp hp1
          rw [pairTokens] at hx
          simp only at hx
          rcases List.mem_append.mp hx with h1 | h1
          · rw [tokens_appPrimDecl hprimId htmp] at h1
            simp only [List.mem_cons, List.not_mem_nil, or_false] at h1
            rcases h1 with rfl | rfl | rfl | rfl | rfl | rfl | rfl
            · exact Or.inl (by decide)
            · exact Or.inr (Or.inr hdeclPrim)
            · exact Or.inl (by decide)
            · exact Or.inl (by decide)
            · exact Or.inl (by decide)
            · exact Or.inr (Or.inr hdeclTmp)
            · exact Or.inl (by decide)
          · rw [tokens_appPrimOp hprimId htypTok htmp hkontId body] at h1
            simp only [List.cons_append, List.nil_append, List.mem_append, List.mem_cons,
              List.not_mem_nil, or_false, or_assoc] at h1
            rcases h1 with rfl | rfl | rfl | h | rfl | rfl | rfl | rfl | rfl | rfl
            · exact Or.inr (Or.inr hdeclPrim)
            · exact Or.inl (by decide)
            · exact Or.inl htypFixed
            · rcases hbodyToks x h with h2 | h2 | h2
              · exact Or.inl h2
              · subst h2
                exact Or.inr (Or.inr hdeclPrim)
              · rcases hcodeLoc x (mem_of_dropLastQ h2) with ⟨mi, hmi, h3⟩ | h3
                · exact Or.inr (Or.inr (hlift mi hmi _ h3))
                · exact Or.inr (Or.inl h3)
            · exact Or.inr (Or.inr hdeclTmp)
            · exact Or.inl (by decide)
            · exact Or.inl (by decide)
            · rcases hcodeLoc _ hkontMem with ⟨mi, hmi, h3⟩ | h3
              · exact Or.inr (Or.inr (hlift mi hmi _ h3))
              · exact Or.inr (Or.inl h3)
            · exact Or.inl (by decide)
            · exact Or.inr (Or.inr hdeclPrim)
    · rw [Bool.not_eq_true] at hprim
      rw [if_neg (by rw [hprim]; exact Bool.false_ne_true)] at hcall
      have hpairQ : ("THUNK_T " ++ ("__ret_" ++ toString st2.ctr) ++ "(nullptr);",
          ("__ret_" ++ toString st2.ctr) ++ " = std::move((*" ++ n ++ "->lam)(" ++
          joinSep ", " (margs.map CppCode.code) ++ "));") ∈ ((margs.map CppCode.decls).flatten ++ []) ++
          [("THUNK_T " ++ ("__ret_" ++ toString st2.ctr) ++ "(nullptr);",
          ("__ret_" ++ toString st2.ctr) ++ " = std::move((*" ++ n ++ "->lam)(" ++
          joinSep ", " (margs.map CppCode.code) ++ "));")] :=
        List.mem_append_right _ (List.mem_singleton.mpr rfl)
      have hdeclTmp : ("__ret_" ++ toString st2.ctr) ∈ listDeclNames
          (((margs.map CppCode.decls).flatten ++ []) ++
          [("THUNK_T " ++ ("__ret_" ++ toString st2.ctr) ++ "(nullptr);",
          ("__ret_" ++ toString st2.ctr) ++ " = std::move((*" ++ n ++ "->lam)(" ++
          joinSep ", " (margs.map CppCode.code) ++ "));")]) := by
        refine mem_listDeclNames_of_pair hpairQ ?_
        rw [pairDeclNames]
        refine List.mem_append_left _ ?_
        simp only
        rw [tokens_thunkDecl htmp]
        exact declNamesOf_adjacent (Or.inr (Or.inl rfl)) _
      have hlift : ∀ mi ∈ margs, ∀ x ∈ listDeclNames mi.decls, x ∈ listDeclNames
          (((margs.map CppCode.decls).flatten ++ []) ++
          [("THUNK_T " ++ ("__ret_" ++ toString st2.ctr) ++ "(nullptr);",
          ("__ret_" ++ toString st2.ctr) ++ " = std::move((*" ++ n ++ "->lam)(" ++
          joinSep ", " (margs.map CppCode.code) ++ "));")]) := by
        intro mi hmi x hx
        rw [listDeclNames_append, listDeclNames_append]
        exact List.mem_append_left _ (List.mem_append_left _
          (listDeclNames_flatten_of_mem hmi CppCode.decls hx))
      refine ⟨⟨.appK, "__ret_" ++ toString st2.ctr,
        ((margs.map CppCode.decls).flatten ++ []) ++
          [("THUNK_T " ++ ("__ret_" ++ toString st2.ctr) ++ "(nullptr);",
          ("__ret_" ++ toString st2.ctr) ++ " = std::move((*" ++ n ++ "->lam)(" ++
          joinSep ", " (margs.map CppCode.code) ++ "));")]⟩,
        { st2 with ctr := st2.ctr + 1 }, ?_, htmp, Or.inl hdeclTmp, ?_⟩
      · rw [toCpp]
        simp only [toCpp, hargsEq, bind, Except.bind, gensym]
        rw [if_neg (by rw [hprim]; exact Bool.false_ne_true), if_pos trivial]
      · intro p hp x hx
        rcases List.mem_append.mp hp with hp1 | hp1
        · rcases List.mem_append.mp hp1 with hp2 | hp2
          · rw [List.mem_flatten] at hp2
            obtain ⟨l, hl, hpl⟩ := hp2
            obtain ⟨mi, hmi, rfl⟩ := List.mem_map.mp hl
            have h1 := hfs mi hmi
            rw [fragOk] at h1
            rcases h1.2.2 p hpl x hx with h2 | h2 | h2
            · exact Or.inl h2
            · exact Or.inr (Or.inl h2)
            · exact Or.inr (Or.inr (hlift mi hmi _ h2))
          · exact absurd hp2 (List.not_mem_nil p)
        · obtain rfl := List.mem_singleton.mp hp1
          rw [pairTokens] at hx
          simp only at hx
          rcases List.mem_append.mp hx with h1 | h1
          · rw [tokens_thunkDecl htmp] at h1
            simp only [List.mem_cons, List.not_mem_nil, or_false] at h1
            rcases h1 with rfl | rfl | rfl
            · exact Or.inl (by decide)
            · exact Or.inr (Or.inr hdeclTmp)
            · exact Or.inl (by decide)
          · rw [tokens_appVarOp htmp hcall hcodesOk] at h1
            simp only [List.cons_append, List.nil_append, List.mem_append, List.mem_cons,
              List.not_mem_nil, or_false, or_assoc] at h1
            rcases h1 with rfl | rfl | rfl | rfl | rfl | h
            · exact Or.inr (Or.inr hdeclTmp)
            · exact Or.inl (by decide)
            · exact Or.inl (by decide)
            · refine Or.inr (Or.inl (hast _ ?_))
              rw [astToks, astToks]
              exact List.mem_append_left _ (List.mem_singleton.mpr rfl)
            · exact Or.inl (by decide)
            · rcases hcodeLoc x h with ⟨mi, hmi, h3⟩ | h3
              · exact Or.inr (Or.inr (hlift mi hmi _ h3))
              · exact Or.inr (Or.inl h3)
  | .IfExp c t e, hg, hast, hH, hHL, st => by
    rw [goodExp, Bool.and_eq_true, Bool.and_eq_true] at hg
    obtain ⟨⟨hcG, htG⟩, heG⟩ := hg
    obtain ⟨mc, st1, hcEq, hcOk⟩ := toCpp_good S H HL c hcG
      (fun x hx => hast x (by
        rw [astToks]; exact List.mem_append_left _ (List.mem_append_left _ hx)))
      (fun pr hpr => hH pr (by
        rw [lamNameParams]; exact List.mem_append_left _ (List.mem_append_left _ hpr)))
      (fun pr hpr => hHL pr (by
        rw [lamNameParams]; exact List.mem_append_left _ (List.mem_append_left _ hpr))) st
    obtain ⟨mt, st2, htEq, htOk⟩ := toCpp_good S H HL t htG
      (fun x hx => hast x (by
        rw [astToks]; exact List.mem_append_left _ (List.mem_append_right _ hx)))
      (fun pr hpr => hH pr (by
        rw [lamNameParams]; exact List.mem_append_left _ (List.mem_append_right _ hpr)))
      (fun pr hpr => hHL pr (by
        rw [lamNameParams]; exact List.mem_append_left _ (List.mem_append_right _ hpr))) st1
    obtain ⟨me, st3, heEq, heOk⟩ := toCpp_good S H HL e heG
      (fun x hx => hast x (by
        rw [astToks]; exact List.mem_append_right _ hx))
      (fun pr hpr => hH pr (by
        rw [lamNameParams]; exact List.mem_append_right _ hpr))
      (fun pr hpr => hHL pr (by
        rw [lamNameParams]; exact List.mem_append_right _ hpr)) st2
    rw [fragOk] at hcOk htOk heOk
    obtain ⟨hcId, hcLoc, hcToks⟩ := hcOk
    obtain ⟨htId, htLoc, htToks⟩ := htOk
    obtain ⟨heId, heLoc, heToks⟩ := heOk
    have htmp : identOk ("__ret_" ++ toString st3.ctr) = true :=
      gensym_identOk "__ret_" (by decide) st3.ctr
    have hpairP : ("THUNK_T " ++ ("__ret_" ++ toString st3.ctr) ++ "(nullptr);",
        "if (" ++ mc.code ++ "->num) \x7b\n  " ++
        joinNonEmpty "\n" (List.map Prod.fst mt.decls) ++ "\n  " ++
        joinNonEmpty "\n" (List.map Prod.snd mt.decls) ++ "\n  " ++
        ("__ret_" ++ toString st3.ctr) ++ " = std::move(" ++ mt.code ++ ");\n\x7d\nelse \x7b\n  " ++
        joinNonEmpty "\n" (List.map Prod.fst me.decls) ++ "\n  " ++
        joinNonEmpty "\n" (List.map Prod.snd me.decls) ++ "\n  " ++
        ("__ret_" ++ toString st3.ctr) ++ " = std::move(" ++ me.code ++ ");\n\x7d") ∈
        mc.decls ++
        [("THUNK_T " ++ ("__ret_" ++ toString st3.ctr) ++ "(nullptr);",
          "if (" ++ mc.code ++ "->num) \x7b\n  " ++
          joinNonEmpty "\n" (List.map Prod.fst mt.decls) ++ "\n  " ++
          joinNonEmpty "\n" (List.map Prod.snd mt.decls) ++ "\n  " ++
          ("__ret_" ++ toString st3.ctr) ++ " = std::move(" ++ mt.code ++ ");\n\x7d\nelse \x7b\n  " ++
          joinNonEmpty "\n" (List.map Prod.fst me.decls) ++ "\n  " ++
          joinNonEmpty "\n" (List.map Prod.snd me.decls) ++ "\n  " ++
          ("__ret_" ++ toString st3.ctr) ++ " = std::move(" ++ me.code ++ ");\n\x7d")] :=
      List.mem_append_right _ (List.mem_singleton.mpr rfl)
    have hdecl : ("__ret_" ++ toString st3.ctr) ∈ listDeclNames
        (mc.decls ++
        [("THUNK_T " ++ ("__ret_" ++ toString st3.ctr) ++ "(nullptr);",
          "if (" ++ mc.code ++ "->num) \x7b\n  " ++
          joinNonEmpty "\n" (List.map Prod.fst mt.decls) ++ "\n  " ++
          joinNonEmpty "\n" (List.map Prod.snd mt.decls) ++ "\n  " ++
          ("__ret_" ++ toString st3.ctr) ++ " = std::move(" ++ mt.code ++ ");\n\x7d\nelse \x7b\n  " ++
          joinNonEmpty "\n" (List.map Prod.fst me.decls) ++ "\n  " ++
          joinNonEmpty "\n" (List.map Prod.snd me.decls) ++ "\n  " ++
          ("__ret_" ++ toString st3.ctr) ++ " = std::move(" ++ me.code ++ ");\n\x7d")]) := by
      refine mem_listDeclNames_of_pair hpairP ?_
      rw [pairDeclNames]
      refine List.mem_append_left _ ?_
      simp only
      rw [tokens_thunkDecl htmp]
      exact declNamesOf_adjacent (Or.inr (Or.inl rfl)) _
    have hliftC : ∀ x ∈ listDeclNames mc.decls, x ∈ listDeclNames
        (mc.decls ++
        [("THUNK_T " ++ ("__ret_" ++ toString st3.ctr) ++ "(nullptr);",
          "if (" ++ mc.code ++ "->num) \x7b\n  " ++
          joinNonEmpty "\n" (List.map Prod.fst mt.decls) ++ "\n  " ++
          joinNonEmpty "\n" (List.map Prod.snd mt.decls) ++ "\n  " ++
          ("__ret_" ++ toString st3.ctr) ++ " = std::move(" ++ mt.code ++ ");\n\x7d\nelse \x7b\n  " ++
          joinNonEmpty "\n" (List.map Prod.fst me.decls) ++ "\n  " ++
          joinNonEmpty "\n" (List.map Prod.snd me.decls) ++ "\n  " ++
          ("__ret_" ++ toString st3.ctr) ++ " = std::move(" ++ me.code ++ ");\n\x7d")]) := by
      intro x hx
      rw [listDeclNames_append]
      exact List.mem_append_left _ hx
    have hliftT : ∀ x ∈ listDeclNames mt.decls, x ∈ listDeclNames
        (mc.decls ++
        [("THUNK_T " ++ ("__ret_" ++ toString st3.ctr) ++ "(nullptr);",
          "if (" ++ mc.code ++ "->num) \x7b\n  " ++
          joinNonEmpty "\n" (List.map Prod.fst mt.decls) ++ "\n  " ++
          joinNonEmpty "\n" (List.map Prod.snd mt.decls) ++ "\n  " ++
          ("__ret_" ++ toString st3.ctr) ++ " = std::move(" ++ mt.code ++ ");\n\x7d\nelse \x7b\n  " ++
          joinNonEmpty "\n" (List.map Prod.fst me.decls) ++ "\n  " ++
          joinNonEmpty "\n" (List.map Prod.snd me.decls) ++ "\n  " ++
          ("__ret_" ++ toString st3.ctr) ++ " = std::move(" ++ me.code ++ ");\n\x7d")]) := by
      intro x hx
      refine mem_listDeclNames_of_pair hpairP ?_
      rw [pairDeclNames]
      refine List.mem_append_right _ ?_
      simp only
      rw [tokens_ifOp hcId htmp htId heId]
      rcases mem_declNames_joinNonEmpty hx with h1 | h1
      · exact declNamesOf_append_left (declNamesOf_append_left (declNamesOf_append_left
          (declNamesOf_append_left (declNamesOf_append_left
            (declNamesOf_append_right h1 _) _) _) _) _) _
      · exact declNamesOf_append_left (declNamesOf_append_left (declNamesOf_append_left
          (declNamesOf_append_left (declNamesOf_append_right h1 _) _) _) _) _
    have hliftE : ∀ x ∈ listDeclNames me.decls, x ∈ listDeclNames
        (mc.decls ++
        [("THUNK_T " ++ ("__ret_" ++ toString st3.ctr) ++ "(nullptr);",
          "if (" ++ mc.code ++ "->num) \x7b\n  " ++
          joinNonEmpty "\n" (List.map Prod.fst mt.decls) ++ "\n  " ++
          joinNonEmpty "\n" (List.map Prod.snd mt.decls) ++ "\n  " ++
          ("__ret_" ++ toString st3.ctr) ++ " = std::move(" ++ mt.code ++ ");\n\x7d\nelse \x7b\n  " ++
          joinNonEmpty "\n" (List.map Prod.fst me.decls) ++ "\n  " ++
          joinNonEmpty "\n" (List.map Prod.snd me.decls) ++ "\n  " ++
          ("__ret_" ++ toString st3.ctr) ++ " = std::move(" ++ me.code ++ ");\n\x7d")]) := by
      intro x hx
      refine mem_listDeclNames_of_pair hpairP ?_
      rw [pairDeclNames]
      refine List.mem_append_right _ ?_
      simp only
      rw [tokens_ifOp hcId htmp htId heId]
      rcases mem_declNames_joinNonEmpty hx with h1 | h1
      · exact declNamesOf_append_left (declNamesOf_append_left
          (declNamesOf_append_right h1 _) _) _
      · exact declNamesOf_append_left (declNamesOf_append_right h1 _) _
    refine ⟨⟨.ifK, "__ret_" ++ toString st3.ctr,
      mc.decls ++
      [("THUNK_T " ++ ("__ret_" ++ toString st3.ctr) ++ "(nullptr);",
        "if (" ++ mc.code ++ "->num) \x7b\n  " ++
        joinNonEmpty "\n" (List.map Prod.fst mt.decls) ++ "\n  " ++
        joinNonEmpty "\n" (List.map Prod.snd mt.decls) ++ "\n  " ++
        ("__ret_" ++ toString st3.ctr) ++ " = std::move(" ++ mt.code ++ ");\n\x7d\nelse \x7b\n  " ++
        joinNonEmpty "\n" (List.map Prod.fst me.decls) ++ "\n  " ++
        joinNonEmpty "\n" (List.map Prod.snd me.decls) ++ "\n  " ++
        ("__ret_" ++ toString st3.ctr) ++ " = std::move(" ++ me.code ++ ");\n\x7d")]⟩,
      { st3 with ctr := st3.ctr + 1 }, ?_, htmp, Or.inl hdecl, ?_⟩
    · rw [toCpp]
      simp only [hcEq, htEq, heEq, bind, Except.bind, gensym, CppCode.decls_ops]
    · intro p hp x hx
      rcases List.mem_append.mp hp with hp1 | hp1
      · rcases hcToks p hp1 x hx with h | h | h
        · exact Or.inl h
        · exact Or.inr (Or.inl h)
        · exact Or.inr (Or.inr (hliftC _ h))
      · obtain rfl := List.mem_singleton.mp hp1
        rw [pairTokens] at hx
        simp only at hx
        rcases List.mem_append.mp hx with h1 | h1
        · rw [tokens_thunkDecl htmp] at h1
          rcases List.mem_cons.mp h1 with rfl | h1
          · exact Or.inl (by decide)
          rcases List.mem_cons.mp h1 with rfl | h1
          · exact Or.inr (Or.inr hdecl)
          rcases List.mem_cons.mp h1 with rfl | h1
          · exact Or.inl (by decide)
          · exact absurd h1 (List.not_mem_nil x)
        · rw [tokens_ifOp hcId htmp htId heId] at h1
          simp only [List.cons_append, List.nil_append, List.mem_append, List.mem_cons,
            List.not_mem_nil, or_false, or_assoc] at h1
          rcases h1 with rfl | rfl | rfl | h | h | rfl | rfl | rfl | rfl | rfl | h | h |
            rfl | rfl | rfl | rfl
          · exact Or.inl (by decide)
          · exact hcLoc.elim (fun h2 => Or.inr (Or.inr (hliftC _ h2)))
              (fun h2 => Or.inr (Or.inl h2))
          · exact Or.inl (by decide)
          · obtain ⟨q, hq, hxq⟩ := mem_tokens_joinNonEmpty_fst h
            rcases htToks q hq x hxq with h2 | h2 | h2
            · exact Or.inl h2
            · exact Or.inr (Or.inl h2)
            · exact Or.inr (Or.inr (hliftT _ h2))
          · obtain ⟨q, hq, hxq⟩ := mem_tokens_joinNonEmpty_snd h
            rcases htToks q hq x hxq with h2 | h2 | h2
            · exact Or.inl h2
            · exact Or.inr (Or.inl h2)
            · exact Or.inr (Or.inr (hliftT _ h2))
          · exact Or.inr (Or.inr hdecl)
          · exact Or.inl (by decide)
          · exact Or.inl (by decide)
          · exact htLoc.elim (fun h2 => Or.inr (Or.inr (hliftT _ h2)))
              (fun h2 => Or.inr (Or.inl h2))
          · exact Or.inl (by decide)
          · obtain ⟨q, hq, hxq⟩ := mem_tokens_joinNonEmpty_fst h
            rcases heToks q hq x hxq with h2 | h2 | h2
            · exact Or.inl h2
            · exact Or.inr (Or.inl h2)
            · exact Or.inr (Or.inr (hliftE _ h2))
          · obtain ⟨q, hq, hxq⟩ := mem_tokens_joinNonEmpty_snd h
            rcases heToks q hq x hxq with h2 | h2 | h2
            · exact Or.inl h2
            · exact Or.inr (Or.inl h2)
            · exact Or.inr (Or.inr (hliftE _ h2))
          · exact Or.inr (Or.inr hdecl)
          · exact Or.inl (by decide)
          · exact Or.inl (by decide)
          · exact heLoc.elim (fun h2 => Or.inr (Or.inr (hliftE _ h2)))
              (fun h2 => Or.inr (Or.inl h2))
  | .LetRecExp bs body, hg, hast, hH, hHL, st => by
    rw [goodExp, Bool.and_eq_true] at hg
    obtain ⟨hbsG, hbG⟩ := hg
    obtain ⟨mbs, st1, hbsEq, hmbs⟩ := toCppBinds_good S H HL bs hbsG
      (fun x hx => hast x (by rw [astToks]; exact List.mem_append_left _ hx))
      (fun pr hpr => hH pr (by rw [lamNameParams]; exact List.mem_append_left _ hpr))
      (fun pr hpr => hHL pr (by rw [lamNameParams]; exact List.mem_append_left _ hpr)) st
    obtain ⟨mb, st2, hbEq, hbOk⟩ := toCpp_good S H HL body hbG
      (fun x hx => hast x (by rw [astToks]; exact List.mem_append_right _ hx))
      (fun pr hpr => hH pr (by rw [lamNameParams]; exact List.mem_append_right _ hpr))
      (fun pr hpr => hHL pr (by rw [lamNameParams]; exact List.mem_append_right _ hpr)) st1
    rw [fragOk] at hbOk
    obtain ⟨hbId, hbLoc, hbToks⟩ := hbOk
    have hliftB : ∀ x ∈ listDeclNames mb.decls, x ∈ listDeclNames
        ((mbs.map (fun vc => vc.2.decls ++
          [(declare vc.1, vc.1 ++ " = std::move(" ++ vc.2.code ++ ");")])).flatten ++
          mb.decls) := by
      intro x hx
      rw [listDeclNames_append]
      exact List.mem_append_right _ hx
    have hliftV : ∀ vc ∈ mbs, ∀ x ∈ listDeclNames vc.2.decls, x ∈ listDeclNames
        ((mbs.map (fun vc => vc.2.decls ++
          [(declare vc.1, vc.1 ++ " = std::move(" ++ vc.2.code ++ ");")])).flatten ++
          mb.decls) := by
      intro vc hvc x hx
      rw [listDeclNames_append]
      refine List.mem_append_left _ ?_
      refine listDeclNames_flatten_of_mem hvc _ ?_
      rw [listDeclNames_append]
      exact List.mem_append_left _ hx
    refine ⟨⟨.letrecK, mb.code,
      (mbs.map (fun vc => vc.2.decls ++
        [(declare vc.1, vc.1 ++ " = std::move(" ++ vc.2.code ++ ");")])).flatten ++
        mb.decls⟩,
      st2, ?_, hbId, ?_, ?_⟩
    · rw [toCpp]
      simp only [hbsEq, hbEq, bind, Except.bind]
    · rcases hbLoc with h | h
      · exact Or.inl (hliftB _ h)
      · exact Or.inr h
    · intro p hp x hx
      rcases List.mem_append.mp hp with hp1 | hp1
      · rw [List.mem_flatten] at hp1
        obtain ⟨l, hl, hpl⟩ := hp1
        obtain ⟨vc, hvc, rfl⟩ := List.mem_map.mp hl
        obtain ⟨hvId, hvS, hvOk⟩ := hmbs vc hvc
        rw [fragOk] at hvOk
        obtain ⟨hvcId, hvcLoc, hvcToks⟩ := hvOk
        rcases List.mem_append.mp hpl with hp2 | hp2
        · rcases hvcToks p hp2 x hx with h | h | h
          · exact Or.inl h
          · exact Or.inr (Or.inl h)
          · exact Or.inr (Or.inr (hliftV vc hvc _ h))
        · obtain rfl := List.mem_singleton.mp hp2
          rw [pairTokens] at hx
          simp only at hx
          rcases List.mem_append.mp hx with h1 | h1
          · rw [tokens_declare hvId] at h1
            simp only [List.mem_cons, List.not_mem_nil, or_false] at h1
            rcases h1 with rfl | rfl | rfl | rfl
            · exact Or.inl (by decide)
            · exact Or.inr (Or.inl hvS)
            · exact Or.inl (by decide)
            · exact Or.inl (by decide)
          · rw [tokens_letrecOp hvId hvcId] at h1
            simp only [List.mem_cons, List.not_mem_nil, or_false] at h1
            rcases h1 with rfl | rfl | rfl | rfl
            · exact Or.inr (Or.inl hvS)
            · exact Or.inl (by decide)
            · exact Or.inl (by decide)
            · exact hvcLoc.elim (fun h2 => Or.inr (Or.inr (hliftV vc hvc _ h2)))
                (fun h2 => Or.inr (Or.inl h2))
      · rcases hbToks p hp1 x hx with h | h | h
        · exact Or.inl h
        · exact Or.inr (Or.inl h)
        · exact Or.inr (Or.inr (hliftB _ h))
  | .BeginExp _, hg, _, _, _, st => by rw [goodExp] at hg; exact absurd hg (by simp)
  | .SetExp _ _, hg, _, _, _, st => by rw [goodExp] at hg; exact absurd hg (by simp)
  | .SetThenExp _ _ _, hg, _, _, _, st => by rw [goodExp] at hg; exact absurd hg (by simp)
  | .CppCodeExp _, hg, _, _, _, st => by rw [goodExp] at hg; exact absurd hg (by simp)

theorem toCppList_good (S : List String) (H HL : HDict) : ∀ (es : List Exp),
    goodExpList es = true →
    (∀ t ∈ astToksList es, t ∈ S) →
    (∀ pr ∈ lamNameParamsList es, ∃ hs, H.lookup pr.1 = some hs ∧
      ∀ x ∈ hs, identOk x = true ∧ x ∈ S) →
    (∀ pr ∈ lamNameParamsList es, ∃ hs, HL.lookup pr.1 = some hs ∧
      ∀ x ∈ hs, identOk x = true ∧ x ∈ S) →
    ∀ st, ∃ frags st', toCppList H HL es st = .ok (frags, st') ∧
      frags.length = es.length ∧ ∀ f ∈ frags, fragOk S f
  | [], _, _, _, _, st => ⟨[], st, rfl, rfl, fun f hf => absurd hf (List.not_mem_nil f)⟩
  | e :: es, hg, hast, hH, hHL, st => by
    rw [goodExpList, Bool.and_eq_true] at hg
    obtain ⟨frag, st1, he, hfOk⟩ := toCpp_good S H HL e hg.1
      (fun t ht => hast t (by rw [astToksList]; exact List.mem_append_left _ ht))
      (fun pr hpr => hH pr (by rw [lamNameParamsList]; exact List.mem_append_left _ hpr))
      (fun pr hpr => hHL pr (by rw [lamNameParamsList]; exact List.mem_append_left _ hpr)) st
    obtain ⟨frags, st2, hes, hlen, hfs⟩ := toCppList_good S H HL es hg.2
      (fun t ht => hast t (by rw [astToksList]; exact List.mem_append_right _ ht))
      (fun pr hpr => hH pr (by rw [lamNameParamsList]; exact List.mem_append_right _ hpr))
      (fun pr hpr => hHL pr (by rw [lamNameParamsList]; exact List.mem_append_right _ hpr)) st1
    refine ⟨frag :: frags, st2, ?_, ?_, ?_⟩
    · rw [toCppList]
      simp only [he, hes, bind, Except.bind]
    · simp only [List.length_cons, hlen]
    · intro f hf
      rcases List.mem_cons.mp hf with rfl | hf
      · exact hfOk
      · exact hfs f hf

theorem toCppBinds_good (S : List String) (H HL : HDict) : ∀ (bs : List (String × Exp)),
    goodBinds bs = true →
    (∀ t ∈ astToksBinds bs, t ∈ S) →
    (∀ pr ∈ lamNameParamsBinds bs, ∃ hs, H.lookup pr.1 = some hs ∧
      ∀ x ∈ hs, identOk x = true ∧ x ∈ S) →
    (∀ pr ∈ lamNameParamsBinds bs, ∃ hs, HL.lookup pr.1 = some hs ∧
      ∀ x ∈ hs, identOk x = true ∧ x ∈ S) →
    ∀ st, ∃ prs st', toCppBinds H HL bs st = .ok (prs, st') ∧
      ∀ vc ∈ prs, identOk vc.1 = true ∧ vc.1 ∈ S ∧ fragOk S vc.2
  | [], _, _, _, _, st => ⟨[], st, rfl, fun vc hvc => absurd hvc (List.not_mem_nil vc)⟩
  | (v, e) :: bs, hg, hast, hH, hHL, st => by
    rw [goodBinds, Bool.and_eq_true, Bool.and_eq_true] at hg
    obtain ⟨frag, st1, he, hfOk⟩ := toCpp_good S H HL e hg.1.2
      (fun t ht => hast t (by
        rw [astToksBinds]
        exact List.mem_cons_of_mem _ (List.mem_append_left _ ht)))
      (fun pr hpr => hH pr (by rw [lamNameParamsBinds]; exact List.mem_append_left _ hpr))
      (fun pr hpr => hHL pr (by rw [lamNameParamsBinds]; exact List.mem_append_left _ hpr)) st
    obtain ⟨prs, st2, hbs, hprs⟩ := toCppBinds_good S H HL bs hg.2
      (fun t ht => hast t (by
        rw [astToksBinds]
        exact List.mem_cons_of_mem _ (List.mem_append_right _ ht)))
      (fun pr hpr => hH pr (by rw [lamNameParamsBinds]; exact List.mem_append_right _ hpr))
      (fun pr hpr => hHL pr (by rw [lamNameParamsBinds]; exact List.mem_append_right _ hpr)) st1
    refine ⟨(v, frag) :: prs, st2, ?_, ?_⟩
    · rw [toCppBinds]
      simp only [he, hbs, bind, Except.bind]
    · intro vc hvc
      rcases List.mem_cons.mp hvc with rfl | hvc
      · exact ⟨hg.1.1, hast v (by rw [astToksBinds]; exact List.mem_cons_self _ _), hfOk⟩
      · exact hprs vc hvc
end

/-! ## Claim theorems -/

set_option maxRecDepth 20000

/-- Claim C2: the spec says the halt continuation prints per tag and
exits with non-zero status exactly for an unrecognized tag (status 0
for Number, Closure and Text), and that the `(+ 2 3 halt)` program
prints 5 and exits 0.  The emitted switch has no `break` statements, so
under C fall-through semantics a Number-tagged value prints all four
messages and reaches the `retval = -1` of the default arm: the process
exits non-zero for every tag.  This theorem exhibits the bug: the
structured arm list renders exactly to the emitted operation text, that
text contains no `break`, and the fall-through run from each arm ends
with exit status -1. -/
theorem halt_switch_fallthrough_bug :
    renderHaltSwitch = haltSwitchOp ∧
    hasSubstr haltSwitchOp "break" = false ∧
    halt = .LamExp haltName [.CppCodeExp ⟨.varK, haltArgName, []⟩]
      (.CppCodeExp ⟨.lamK, "THUNK_T(nullptr)", [(haltDecl, haltSwitchOp)]⟩) ∧
    runHaltSwitch ("case " ++ NUM) =
      (["the integer", "the closure diagnostic", "the string", "error"], -1) ∧
    runHaltSwitch ("case " ++ LAM) = (["the closure diagnostic", "the string", "error"], -1) ∧
    runHaltSwitch ("case " ++ STR) = (["the string", "error"], -1) ∧
    (-1 : Int) ≠ 0 :=
  ⟨rfl, by decide, rfl, rfl, rfl, rfl, by decide⟩

/-- Claim C4: the spec says `string-append` yields a Text result tag
with allocate/append code and `string=?` yields a *Number* result tag
with an inequality test.  In the code, `StrPrimOps.__call__` returns
the tag `STR` for both entries — `string=?` is tagged Text although its
template assigns the numeric field.  This theorem evaluates both
lookups: the first conjunct confirms the Text half of the claim, the
third shows `string=?` also comes back tagged `STR`, not `NUM`. -/
theorem string_primop_tag_bug :
    gen_primop "string-append" "d" ["a", "b"] = .ok (STR, StrPrimOps.append_fmt "d" "a" "b") ∧
    StrPrimOps.append_fmt "d" "a" "b" =
      "d->str = std::shared_ptr<std::string>(a->str);\nd->str.append(b->str);" ∧
    gen_primop "string=?" "d" ["a", "b"] = .ok (STR, "d->num = a->str.compare(b->str) != 0;") ∧
    STR ≠ NUM :=
  ⟨rfl, rfl, rfl, by decide⟩

/-- Claim C6: after all lambdas are recorded, `decls_ops` emits the base
callable with exactly one call signature per arity in the inclusive
range from the minimum to the maximum observed arity (arities inside
the range that no lambda uses included), and for each such arity a
default operation that prints an arity-mismatch diagnostic and
terminates with the non-zero status `exit(-1)`. -/
theorem lambda_base_decls_ops (st : St) (lo hi : Nat)
    (hlo : pyMin st.nargs = some lo) (hhi : pyMax st.nargs = some hi) :
    ∃ d o,
      lambdaDeclsOps st = .ok (d, o) ∧
      d = "class lambda_t \x7b\n public:\n  " ++
          joinSep "\n  " ((List.range' lo (hi + 1 - lo)).map lambdaBaseSig) ++ "\n\x7d;\n" ++
          joinNonEmpty "\n" (st.lamDecls.map (fun x => x.2.1)) ∧
      o = String.join ((List.range' lo (hi + 1 - lo)).map lambdaBaseOp) ++
          joinNonEmpty "\n" (st.lamDecls.map (fun x => x.2.2)) ∧
      (∀ i, lambdaBaseSig i ∈ (List.range' lo (hi + 1 - lo)).map lambdaBaseSig ↔
        lo ≤ i ∧ i ≤ hi) ∧
      ((List.range' lo (hi + 1 - lo)).map lambdaBaseSig).Nodup ∧
      (∀ i, lo ≤ i → i ≤ hi →
        lambdaBaseOp i ∈ (List.range' lo (hi + 1 - lo)).map lambdaBaseOp ∧
        ∃ pre, lambdaBaseOp i = pre ++
          "  printf(\"error: lambda called with an improper number of arguments\\n\");\n  exit(-1);\n\x7d\n") := by
  have hle : lo ≤ hi := pyMin_le_pyMax hlo hhi
  refine ⟨_, _, ?_, rfl, rfl, ?_, ?_, ?_⟩
  · rw [lambdaDeclsOps, hlo, hhi]
  · intro i
    constructor
    · rintro hmem
      rw [List.mem_map] at hmem
      obtain ⟨j, hj, hsig⟩ := hmem
      rw [List.mem_range'_1] at hj
      have := lambdaBaseSig_inj hsig
      omega
    · rintro ⟨h1, h2⟩
      exact List.mem_map_of_mem _ (List.mem_range'_1.mpr ⟨h1, by omega⟩)
  · exact (List.nodup_range' _ _).map_on
      (fun i _ j _ h => lambdaBaseSig_inj h)
  · intro i h1 h2
    refine ⟨List.mem_map_of_mem _ (List.mem_range'_1.mpr ⟨h1, by omega⟩), ?_⟩
    refine ⟨"THUNK_T lambda_t::operator()(" ++
      joinSep ", " ((List.range i).map (fun j => "SCHEMETYPE_T _" ++ toString j)) ++
      ") const \x7b\n", ?_⟩
    simp [lambdaBaseOp, String.append_assoc]

/-- Witness for C6 at the concrete arity set `{1, 3}` (so arity 2 is in
range but unused). -/
theorem lambda_base_decls_ops_witness :
    pyMin ([1, 3] : List Nat) = some 1 ∧ pyMax ([1, 3] : List Nat) = some 3 ∧
    ∃ d o, lambdaDeclsOps ⟨0, [1, 3], []⟩ = .ok (d, o) := by
  refine ⟨rfl, rfl, ?_⟩
  obtain ⟨d, o, h, -⟩ := lambda_base_decls_ops ⟨0, [1, 3], []⟩ 1 3 rfl rfl
  exact ⟨d, o, h⟩

/-- Claim C7: lowering a literal allocates exactly one freshly named
tagged-value slot, declares it, and sets tag and payload from the
literal — `NumberLiteral(n)` gives tag `NUM` and payload `n`,
`BooleanLiteral` gives tag `NUM` with payload 1 (true) or 0 (false),
`StringLiteral(s)` gives tag `STR` with the payload `s` verbatim inside
the emitted quotes, and `VoidLiteral` fails with the unimplemented
error. -/
theorem literal_lowering (H HL : HDict) (n : Int) (b : Bool) (s : String) (st : St) :
    toCpp H HL (.NumExp n) st =
      .ok (⟨.numK, "__num_" ++ toString st.ctr,
        [(declare ("__num_" ++ toString st.ctr),
          ("__num_" ++ toString st.ctr) ++ "->type = " ++ NUM ++ ";\n" ++
          ("__num_" ++ toString st.ctr) ++ "->num = " ++ toString n ++ ";")]⟩,
        { st with ctr := st.ctr + 1 }) ∧
    toCpp H HL (.BoolExp b) st =
      .ok (⟨.boolK, "__bool_" ++ toString st.ctr,
        [(declare ("__bool_" ++ toString st.ctr),
          ("__bool_" ++ toString st.ctr) ++ "->type = " ++ NUM ++ ";\n" ++
          ("__bool_" ++ toString st.ctr) ++ "->num = " ++ (if b then "1" else "0") ++ ";")]⟩,
        { st with ctr := st.ctr + 1 }) ∧
    toCpp H HL (.StrExp s) st =
      .ok (⟨.strK, "__str_" ++ toString st.ctr,
        [(declare ("__str_" ++ toString st.ctr),
          ("__str_" ++ toString st.ctr) ++ "->type = " ++ STR ++ ";\n" ++
          ("__str_" ++ toString st.ctr) ++ "->str = " ++ ("\"" ++ s ++ "\"") ++ ";")]⟩,
        { st with ctr := st.ctr + 1 }) ∧
    toCpp H HL .VoidExp st =
      .error (.runtimeError ("unimplemented expression type: " ++ kindStr .voidK)) :=
  ⟨rfl, rfl, rfl, rfl⟩

/-- Claim C8: looking the same lambda up twice in the lambda lifter is
idempotent — if a lookup succeeds, the name returned is the lambda's
own name, and any further lookup of that name returns the same name
and leaves the state (the memoized definitions, in particular)
completely unchanged. -/
theorem lambda_memo_idempotent (HL : HDict) (nm : String) (margs : List CppCode)
    (mbody : CppCode) (st : St) (nm' : String) (st' : St)
    (h : lamGetitem HL nm margs mbody st = .ok (nm', st')) :
    nm' = nm ∧
    ∀ margs2 mbody2, lamGetitem HL nm margs2 mbody2 st' = .ok (nm, st') := by
  rw [lamGetitem] at h
  by_cases hmemo : (st.lamDecls.lookup nm).isSome
  · rw [if_pos hmemo] at h
    simp only [Except.ok.injEq, Prod.mk.injEq] at h
    obtain ⟨h1, h2⟩ := h
    subst h1 h2
    refine ⟨rfl, fun margs2 mbody2 => ?_⟩
    rw [lamGetitem, if_pos hmemo]
  · rw [if_neg hmemo] at h
    cases hHL : HL.lookup nm with
    | none => rw [hHL] at h; exact absurd h (by simp)
    | some hs =>
      rw [hHL] at h
      simp only [Except.ok.injEq, Prod.mk.injEq] at h
      obtain ⟨h1, h2⟩ := h
      subst h1
      refine ⟨rfl, fun margs2 mbody2 => ?_⟩
      have hlook : (st'.lamDecls.lookup nm).isSome := by
        rw [← h2]
        simp only []
        rw [lookup_append_of_none _ (Option.not_isSome_iff_eq_none.mp hmemo)]
        simp [List.lookup]
      rw [lamGetitem, if_pos hlook]

/-- Witness for C8: a concrete first lookup followed by a second lookup
that returns the same name and the unchanged state. -/
theorem lambda_memo_idempotent_witness :
    lamGetitem [("f0", [])] "f0" [] ⟨.numK, "z", []⟩
      ⟨0, [1],
       [("f0",
         "class f0 : public lambda_t \x7b\n public:\n  f0() :  \x7b \x7d\n  ~f0() \x7b \x7d;\n  THUNK_T operator()(SCHEMETYPE_T x) const;\n private:\n  \n\x7d;",
         "THUNK_T f0::operator()(SCHEMETYPE_T x) const \x7b\n  \n  \n  return x;\n\x7d")]⟩ =
    .ok ("f0",
      ⟨0, [1],
       [("f0",
         "class f0 : public lambda_t \x7b\n public:\n  f0() :  \x7b \x7d\n  ~f0() \x7b \x7d;\n  THUNK_T operator()(SCHEMETYPE_T x) const;\n private:\n  \n\x7d;",
         "THUNK_T f0::operator()(SCHEMETYPE_T x) const \x7b\n  \n  \n  return x;\n\x7d")]⟩) :=
  (lambda_memo_idempotent [("f0", [])] "f0" [⟨.varK, "x", []⟩] ⟨.varK, "x", []⟩
    ⟨0, [], []⟩ "f0" _ rfl).2 [] ⟨.numK, "z", []⟩

/-- Claim C9 counterexample: the claim says an operator absent from both
tables (e.g. `bogus` with two operands) fails with an "unimplemented
primitive" error; in the code `gen_primop` raises a bare
`KeyError('bogus')` there — not a RuntimeError carrying that message. -/
theorem gen_primop_unknown_key_counterexample :
    gen_primop "bogus" "d" ["a", "b"] = .error (.keyError "bogus") ∧
    isUnimplementedPrimError (gen_primop "bogus" "d" ["a", "b"]) = false :=
  ⟨rfl, rfl⟩

/-- Claim C9 (amended): `gen_primop` either returns a (result tag, code
text) pair or fails; an arity mismatch against the table the operator
is found in (unary-only `zero?` with two operands, binary-only `+` or
`string-append` with one) fails with the "unimplemented primitive"
RuntimeError, while an operator absent from both tables fails with a
bare `KeyError` naming it. -/
theorem gen_primop_arity_errors :
    (∀ dst a b, gen_primop "zero?" dst [a, b] =
      .error (.runtimeError ("unimplemented primitive number operation: " ++ "zero?")) ∧
      isUnimplementedPrimError (gen_primop "zero?" dst [a, b]) = true) ∧
    (∀ dst a, gen_primop "+" dst [a] =
      .error (.runtimeError ("unimplemented primitive number operation: " ++ "+")) ∧
      isUnimplementedPrimError (gen_primop "+" dst [a]) = true) ∧
    (∀ dst a, gen_primop "string-append" dst [a] =
      .error (.runtimeError ("unimplemented primitive operation: " ++ "string-append")) ∧
      isUnimplementedPrimError (gen_primop "string-append" dst [a]) = true) ∧
    (∀ op dst args, NumPrimOps.contains op = false → StrPrimOps.contains op = false →
      gen_primop op dst args = .error (.keyError op)) := by
  refine ⟨fun dst a b => ⟨rfl, rfl⟩, fun dst a => ⟨rfl, rfl⟩, fun dst a => ⟨rfl, rfl⟩, ?_⟩
  intro op dst args h1 h2
  simp [gen_primop, h1, h2]

/-- Witness for C9 (amended), at the unknown operator `bogus`. -/
theorem gen_primop_arity_errors_witness :
    gen_primop "bogus" "x" ["y"] = .error (.keyError "bogus") :=
  gen_primop_arity_errors.2.2.2 "bogus" "x" ["y"] (by rfl) (by rfl)

/-- Claim C3: for an application whose callee lowered to a recognized
primitive name, `to_cpp` concatenates all argument fragments'
declaration lists in order, then the callee fragment's, and appends one
pair that computes the primitive over all arguments but the last into
a fresh `__prim_` slot and invokes the last argument (the CPS
continuation) with that slot, binding the resulting thunk to the fresh
`__ret_` identifier that becomes the node's value. -/
theorem app_primop_lowering (H HL : HDict) (f : Exp) (args : List Exp) (st st1 st2 : St)
    (mf : CppCode) (margs : List CppCode) (typ body : String) (kont : String)
    (hf : toCpp H HL f st = .ok (mf, st1))
    (hargs : toCppList H HL args st1 = .ok (margs, st2))
    (hprim : is_primop mf.code = true)
    (hgen : gen_primop mf.code ("__prim_" ++ toString (st2.ctr + 1))
      ((margs.map CppCode.code).dropLast) = .ok (typ, body))
    (hlast : (margs.map CppCode.code).getLast? = some kont) :
    toCpp H HL (.AppExp f args) st =
      .ok (⟨.appK, "__ret_" ++ toString st2.ctr,
        (margs.map CppCode.decls).flatten ++ mf.decls ++
        [(declare ("__prim_" ++ toString (st2.ctr + 1)) ++ "\nTHUNK_T " ++
            ("__ret_" ++ toString st2.ctr) ++ "(nullptr);",
          ("__prim_" ++ toString (st2.ctr + 1)) ++ "->type = " ++ typ ++ ";\n" ++
            body ++ "\n" ++ ("__ret_" ++ toString st2.ctr) ++
            " = std::move((*" ++ kont ++ "->lam)(" ++
            ("__prim_" ++ toString (st2.ctr + 1)) ++ "));")]⟩,
        { st2 with ctr := st2.ctr + 2 }) := by
  simp only [toCpp, hf, hargs, bind, Except.bind, gensym, hprim, hgen, hlast,
    if_true, eq_self_iff_true, if_pos]

/-- Witness for C3 at the tree `(+ 2 3 k)`. -/
theorem app_primop_lowering_witness :
    toCpp [] [] (.AppExp (.VarExp "+") [.NumExp 2, .NumExp 3, .VarExp "k"]) ⟨0, [], []⟩ =
      .ok (⟨.appK, "__ret_2",
        [("SCHEMETYPE_T __num_0(new schemetype_t);", "__num_0->type = NUM;\n__num_0->num = 2;"),
         ("SCHEMETYPE_T __num_1(new schemetype_t);", "__num_1->type = NUM;\n__num_1->num = 3;"),
         ("SCHEMETYPE_T __prim_3(new schemetype_t);\nTHUNK_T __ret_2(nullptr);",
          "__prim_3->type = NUM;\n__prim_3->num = __num_0->num + __num_1->num;\n__ret_2 = std::move((*k->lam)(__prim_3));")]⟩,
        ⟨4, [], []⟩) :=
  app_primop_lowering [] [] (.VarExp "+") [.NumExp 2, .NumExp 3, .VarExp "k"]
    ⟨0, [], []⟩ ⟨0, [], []⟩ ⟨2, [], []⟩ ⟨.varK, "+", []⟩
    [⟨.numK, "__num_0",
      [("SCHEMETYPE_T __num_0(new schemetype_t);", "__num_0->type = NUM;\n__num_0->num = 2;")]⟩,
     ⟨.numK, "__num_1",
      [("SCHEMETYPE_T __num_1(new schemetype_t);", "__num_1->type = NUM;\n__num_1->num = 3;")]⟩,
     ⟨.varK, "k", []⟩]
    NUM "__prim_3->num = __num_0->num + __num_1->num;" "k" rfl rfl rfl rfl rfl

/-- Claim C10: `gen_cpp` computes the holes dictionary twice — once
directly (`holes`, gencpp.py line 281) and once inside the
`LambdaGenCpp` constructor (line 171, via line 282).  In this pure
embedding both are the single deterministic value `compute_holes e`, so
one lookup hypothesis `(compute_holes e).lookup nm = some hs` feeds
both use sites, and the theorem shows the *same* ordered hole list `hs`
becomes the constructor-parameter list of the memoized class
declaration (`lamClassDecl nm hs ...`) and the argument list of the
`new` expression that instantiates it (`lamInstantiation ... nm hs`):
the captured-hole parameter order always matches the instantiation
argument order.  (The Python in-process determinism of `list(set)`
iteration is what this deterministic model stands for.) -/
theorem hole_maps_agree (e : Exp) (nm : String) (args : List Exp) (body : Exp)
    (st st1 st2 : St) (margs : List CppCode) (mbody : CppCode) (hs : List String)
    (hargs : toCppList (compute_holes e) (compute_holes e) args st = .ok (margs, st1))
    (hbody : toCpp (compute_holes e) (compute_holes e) body st1 = .ok (mbody, st2))
    (hmemo : st2.lamDecls.lookup nm = none)
    (hH : (compute_holes e).lookup nm = some hs) :
    toCpp (compute_holes e) (compute_holes e) (.LamExp nm args body) st =
      .ok (⟨.lamK, "__lam_" ++ toString st2.ctr,
        [(declare ("__lam_" ++ toString st2.ctr),
          lamInstantiation ("__lam_" ++ toString st2.ctr) nm hs)]⟩,
        ⟨st2.ctr + 1, setAddNat st2.nargs margs.length,
         st2.lamDecls ++
           [(nm, lamClassDecl nm hs (lamApplyArgs margs),
             lamClassOp nm (lamApplyArgs margs) mbody.decls_ops.1 mbody.decls_ops.2
               mbody.code)]⟩) := by
  simp only [toCpp, hargs, hbody, bind, Except.bind, lamGetitem, hmemo, Option.isSome_none,
    Bool.false_eq_true, if_false, hH, gensym]

/-- Witness for C10 at the lambda `f1`, parameter `x`, body `y` (one
captured hole `y`). -/
theorem hole_maps_agree_witness :
    toCpp (compute_holes (.LamExp "f1" [.VarExp "x"] (.VarExp "y")))
        (compute_holes (.LamExp "f1" [.VarExp "x"] (.VarExp "y")))
        (.LamExp "f1" [.VarExp "x"] (.VarExp "y")) ⟨0, [], []⟩ =
      .ok (⟨.lamK, "__lam_0",
        [("SCHEMETYPE_T __lam_0(new schemetype_t);",
          "__lam_0->lam = LAMBDA_T(new f1(y));")]⟩,
        ⟨1, [1],
         [("f1",
           "class f1 : public lambda_t \x7b\n public:\n  f1(SCHEMETYPE_T y) : y(y) \x7b \x7d\n  ~f1() \x7b \x7d;\n  THUNK_T operator()(SCHEMETYPE_T x) const;\n private:\n  SCHEMETYPE_T y;\n\x7d;",
           "THUNK_T f1::operator()(SCHEMETYPE_T x) const \x7b\n  \n  \n  return y;\n\x7d")]⟩) :=
  hole_maps_agree (.LamExp "f1" [.VarExp "x"] (.VarExp "y")) "f1" [.VarExp "x"] (.VarExp "y")
    ⟨0, [], []⟩ ⟨0, [], []⟩ ⟨0, [], []⟩ [⟨.varK, "x", []⟩] ⟨.varK, "y", []⟩ ["y"]
    rfl rfl rfl rfl

/-- Claim C5: for every Lambda node of the input tree (with the
spec's data-model invariants: formal parameters are variable nodes and
equal lambda names carry equal parameter lists), the hole list the
free-variable analyzer records for it contains none of that lambda's
own parameter names and no name recognized as a primitive operator. -/
theorem compute_holes_invariant (root : Exp)
    (hcoh : ∀ p q, p ∈ lamNameParams root → q ∈ lamNameParams root → p.1 = q.1 → p.2 = q.2)
    (nm : String) (ps : List String) (hocc : (nm, ps) ∈ lamNameParams root)
    (hs : List String) (hlook : (compute_holes root).lookup nm = some hs) :
    (∀ p ∈ ps, p ∉ hs) ∧ (∀ x ∈ hs, is_primop x = false) := by
  have hinv0 : holesInv root ([], []) := by
    constructor
    · intro x hx; simp at hx
    · intro nm' hs' hl; simp [List.lookup] at hl
  have hinv := findHoles_inv root hcoh root (fun p hp => hp) ([], []) hinv0
  rw [compute_holes] at hlook
  have := hinv.2 nm hs hlook
  exact ⟨fun p hp => this.2 ps hocc p hp, this.1⟩

/-- Witness for C5 at the lambda `f0` with parameter `x` and body
`(+ x y k)`: the recorded holes are `[y, k]`. -/
theorem compute_holes_invariant_witness :
    (∀ p ∈ (["x"] : List String), p ∉ (["y", "k"] : List String)) ∧
    (∀ x ∈ (["y", "k"] : List String), is_primop x = false) :=
  compute_holes_invariant
    (.LamExp "f0" [.VarExp "x"] (.AppExp (.VarExp "+") [.VarExp "x", .VarExp "y", .VarExp "k"]))
    (by
      intro p q hp hq h
      simp only [lamNameParams, lamNameParamsList, varNamesOf, List.filterMap,
        List.nil_append, List.append_nil, List.mem_singleton] at hp hq
      subst hp hq
      rfl)
    "f0" ["x"] (by
      simp only [lamNameParams, lamNameParamsList, varNamesOf, List.filterMap,
        List.nil_append, List.append_nil, List.mem_singleton])
    ["y", "k"] rfl

/-- Claim C1 (counterexample): lowering the conditional `(if c 1 2)` from
a fresh state yields a fragment with a single declaration/operation pair,
while its three children (lowered at the states the post-order traversal
passes them) contribute two pairs in total, so the parent's list is not
the in-order concatenation of its children's lists followed by the
parent's own pair (1 ≠ 0 + 1 + 1 + 1); and the identifier `c` is
referenced by the parent's pair yet declared by no pair of the parent's
list, so "every identifier referenced is declared earlier in the list"
fails as well. -/
theorem lowering_consistency_counterexample :
    (toCpp [] [] (.IfExp (.VarExp "c") (.NumExp 1) (.NumExp 2)) ⟨0, [], []⟩).toOption.map
        (fun r => r.1.decls.length) = some 1 ∧
    (toCpp [] [] (.VarExp "c") ⟨0, [], []⟩).toOption.map
        (fun r => r.1.decls.length) = some 0 ∧
    (toCpp [] [] (.NumExp 1) ⟨0, [], []⟩).toOption.map
        (fun r => r.1.decls.length) = some 1 ∧
    (toCpp [] [] (.NumExp 2) ⟨1, [], []⟩).toOption.map
        (fun r => r.1.decls.length) = some 1 ∧
    (1 : Nat) ≠ 0 + 1 + 1 + 1 ∧
    (toCpp [] [] (.IfExp (.VarExp "c") (.NumExp 1) (.NumExp 2)) ⟨0, [], []⟩).toOption.map
        (fun r => ((r.1.decls.map pairTokens).flatten.contains "c",
                   (listDeclNames r.1.decls).contains "c")) = some (true, false) :=
  ⟨rfl, rfl, rfl, rfl, by decide, by decide⟩

/-- Claim C1 (corrected): for every tree with no
sequence/assignment/void/embedded-fragment nodes, whose application
callees are primitive names applied at a matching arity or plain
variables, and whose names are all nonempty alphanumeric/underscore
identifiers, `to_cpp` (with both hole maps computed by `compute_holes`)
terminates and yields a single identifier as the node's value — declared
by the fragment's own list or originating in the AST — and every
identifier token of every declaration/operation pair is a fixed
runtime/keyword token, a token originating in the AST, or a name
declared by some pair of the list.  (The original's stronger reading —
strict declared-before-use order and "children's lists followed by the
parent's own pair" — is refuted by the counterexample: conditionals
inline their branches' pairs into the operation text, lambdas move
theirs into the lifted class, and plain variable references have no
declaring pair at all.) -/
theorem lowering_consistency (root : Exp) (hg : goodExp root = true) (st : St) :
    ∃ frag st',
      toCpp (compute_holes root) (compute_holes root) root st = .ok (frag, st') ∧
      identOk frag.code = true ∧
      (frag.code ∈ listDeclNames frag.decls ∨ frag.code ∈ astToks root) ∧
      ∀ p ∈ frag.decls, ∀ t ∈ pairTokens p,
        t ∈ fixedToks ∨ t ∈ astToks root ∨ t ∈ listDeclNames frag.decls := by
  obtain ⟨frag, st', heq, hok⟩ := toCpp_good (astToks root) (compute_holes root)
    (compute_holes root) root hg (fun t ht => ht)
    (compute_holes_okFor root hg) (compute_holes_okFor root hg) st
  rw [fragOk] at hok
  exact ⟨frag, st', heq, hok.1, hok.2.1, hok.2.2⟩

/-- Witness for C1 at the application `(+ 2 3 k)` from a fresh state. -/
theorem lowering_consistency_witness :
    goodExp (.AppExp (.VarExp "+") [.NumExp 2, .NumExp 3, .VarExp "k"]) = true ∧
    ∃ frag st',
      toCpp (compute_holes (.AppExp (.VarExp "+") [.NumExp 2, .NumExp 3, .VarExp "k"])) (compute_holes (.AppExp (.VarExp "+") [.NumExp 2, .NumExp 3, .VarExp "k"])) (.AppExp (.VarExp "+") [.NumExp 2, .NumExp 3, .VarExp "k"]) ⟨0, [], []⟩ = .ok (frag, st') ∧
      identOk frag.code = true ∧
      (frag.code ∈ listDeclNames frag.decls ∨ frag.code ∈ astToks (.AppExp (.VarExp "+") [.NumExp 2, .NumExp 3, .VarExp "k"])) ∧
      ∀ p ∈ frag.decls, ∀ t ∈ pairTokens p,
        t ∈ fixedToks ∨ t ∈ astToks (.AppExp (.VarExp "+") [.NumExp 2, .NumExp 3, .VarExp "k"]) ∨ t ∈ listDeclNames frag.decls :=
  ⟨by decide, lowering_consistency _ (by decide) ⟨0, [], []⟩⟩
